import Mathlib

/-!
Verification development for the Chrome Web Store crawl-and-decode pipeline
(`api_client.py`, `parser.py`, `scraper.py`).

Python strings are modelled as `List Char`; Python's loosely typed JSON-ish
values (the positional row entries, parsed manifests, request payloads) are
modelled by the mutual inductive `JVal`/`JArr`/`JObj`.  Python ints are
`Int`; Python floats are modelled as exact decimals `m / 10^e` (every
numeric literal exercised below is a short decimal, exact in both binary
floating point and this model).  All executable definitions are structural
(fuel-based where needed) so that concrete runs reduce inside the kernel.
-/

/-- Shorthand turning a Lean string literal into the `List Char` model of a
Python string. -/
def S (s : String) : List Char := s.data

/-- The character `'` (kept out of literal position). -/
def sqChar : Char := Char.ofNat 39

/-- The character left curly brace. -/
def lbraceC : Char := Char.ofNat 123

/-- The character right curly brace. -/
def rbraceC : Char := Char.ofNat 125

/-- `startsWithL p s` is true when `p` is a prefix of `s` (the prefix test
Python's `str.split` and `in` perform at each position). -/
def startsWithL : List Char → List Char → Bool
  | [], _ => true
  | _ :: _, [] => false
  | p :: ps, c :: cs => p = c && startsWithL ps cs

/-- `occursIn sep s`: Python's `sep in s` substring test. -/
def occursIn (sep : List Char) : List Char → Bool
  | [] => startsWithL sep []
  | c :: r => startsWithL sep (c :: r) || occursIn sep r

/-- Fueled worker for Python's `str.split(sep)` with a non-empty separator:
greedy, left-to-right, non-overlapping.  With fuel `> length` the fuel is
never exhausted. -/
def splitOnAux (sep : List Char) : Nat → List Char → List (List Char)
  | 0, s => [s]
  | fuel + 1, s =>
    if startsWithL sep s && !sep.isEmpty then
      [] :: splitOnAux sep fuel (s.drop sep.length)
    else
      match s with
      | [] => [[]]
      | c :: r =>
        match splitOnAux sep fuel r with
        | [] => [[c]]
        | h :: t => (c :: h) :: t

/-- Python `s.split(sep)` for a non-empty separator. -/
def splitOnL (sep s : List Char) : List (List Char) := splitOnAux sep (s.length + 1) s

/-- Python `s.replace("\\\\", "\\")`: each left-to-right non-overlapping pair
of backslashes collapses to one. -/
def replBB : List Char → List Char
  | '\\' :: '\\' :: rest => '\\' :: replBB rest
  | c :: rest => c :: replBB rest
  | [] => []

/-- Python `s.replace("\\\"", "\"")`: each backslash-quote pair becomes a
bare quote. -/
def replBQ : List Char → List Char
  | '\\' :: '"' :: rest => '"' :: replBQ rest
  | c :: rest => c :: replBQ rest
  | [] => []

/-- Python `s.replace("\n", "")`: removing a single character equals
filtering it out. -/
def replNL (s : List Char) : List Char := s.filter (fun c => c ≠ '\n')

/-- Python `s[:-2]`. -/
def pyCut2 (s : List Char) : List Char := s.take (s.length - 2)

/-- Digits of a natural number, most significant first (fueled; fuel `≥ n+1`
always suffices since the argument shrinks by a factor of ten). -/
def natStrAux : Nat → Nat → List Char
  | 0, _ => []
  | fuel + 1, n => if n < 10 then [Char.ofNat (48 + n)]
      else natStrAux fuel (n / 10) ++ [Char.ofNat (48 + n % 10)]

/-- Decimal rendering of a natural number (Python `str(n)` for `n ≥ 0`). -/
def natStr (n : Nat) : List Char := natStrAux (n + 1) n

/-- Decimal rendering of an integer (Python `str(n)`). -/
def intStr (n : Int) : List Char := if n < 0 then '-' :: natStr n.natAbs else natStr n.natAbs

/-- Strip trailing decimal zeros: `(m, e)` denoting `m / 10^e` is reduced
until `e = 0` or `m` is not divisible by ten, mirroring how Python prints
`4.50` as `4.5`. -/
def fltNorm : Int → Nat → Int × Nat
  | m, 0 => (m, 0)
  | m, e + 1 => if m % 10 = 0 then fltNorm (m / 10) e else (m, e + 1)

/-- Python `str()` of a float `m / 10^e` with a terminating decimal
expansion: always keeps at least one digit after the point
(`str(5.0) = "5.0"`).  Scientific notation for very large or tiny floats is
not modelled (no property below exercises it). -/
def fltStr (m : Int) (e : Nat) : List Char :=
  let p := fltNorm m e
  let m2 := p.1
  let e2 := p.2
  if e2 = 0 then intStr m2 ++ S ".0"
  else
    let ds0 := natStr m2.natAbs
    let ds := List.replicate (e2 + 1 - ds0.length) '0' ++ ds0
    (if m2 < 0 then ['-'] else []) ++ ds.take (ds.length - e2) ++ '.' :: ds.drop (ds.length - e2)

mutual
/-- Model of Python's JSON-ish runtime values: `None`, booleans, ints,
floats (exact decimals `m / 10^e`), strings, lists and dicts. -/
inductive JVal where
  | null : JVal
  | bool (b : Bool) : JVal
  | int (n : Int) : JVal
  | flt (m : Int) (e : Nat) : JVal
  | str (s : List Char) : JVal
  | arr (l : JArr) : JVal
  | obj (o : JObj) : JVal
/-- Spine of a `JVal` list (kept mutual, rather than `List JVal`, so that all
recursions stay structural and kernel-reducible). -/
inductive JArr where
  | nil : JArr
  | cons (v : JVal) (t : JArr) : JArr
/-- Spine of a `JVal` dict: insertion-ordered key/value bindings. -/
inductive JObj where
  | nil : JObj
  | cons (k : List Char) (v : JVal) (t : JObj) : JObj
end

/-- The `JArr` spine as a Lean list. -/
def jarrToList : JArr → List JVal
  | .nil => []
  | .cons v t => v :: jarrToList t

/-- A Lean list as a `JArr` spine. -/
def jlist : List JVal → JArr
  | [] => .nil
  | v :: t => .cons v (jlist t)

/-- Append one value at the end of a `JArr` spine. -/
def jarrSnoc : JArr → JVal → JArr
  | .nil, v => .cons v .nil
  | .cons w t, v => .cons w (jarrSnoc t v)

/-- Append one binding at the end of a `JObj` spine. -/
def jobjSnoc : JObj → List Char → JVal → JObj
  | .nil, k, v => .cons k v .nil
  | .cons k2 v2 t, k, v => .cons k2 v2 (jobjSnoc t k v)

/-- Length of a `JArr` spine. -/
def jarrLen : JArr → Nat
  | .nil => 0
  | .cons _ t => jarrLen t + 1

/-- Length of a `JObj` spine. -/
def jobjLen : JObj → Nat
  | .nil => 0
  | .cons _ _ t => jobjLen t + 1

/-- `any` of a predicate over a `JArr` spine. -/
def jarrAny : JArr → (JVal → Bool) → Bool
  | .nil, _ => false
  | .cons v t, p => p v || jarrAny t p

/-- Python dict lookup.  Later bindings shadow earlier ones (last write
wins), matching `dict` construction from a decoded JSON object. -/
def jobjFind : JObj → List Char → Option JVal
  | .nil, _ => none
  | .cons k2 v t, k => match jobjFind t k with
      | some r => some r
      | none => if k2 = k then some v else none

/-- Python truthiness (`bool(v)`) of a modelled value. -/
def pyTruthy : JVal → Bool
  | .null => false
  | .bool b => b
  | .int n => n != 0
  | .flt m _ => m != 0
  | .str s => !s.isEmpty
  | .arr .nil => false
  | .arr (.cons _ _) => true
  | .obj .nil => false
  | .obj (.cons _ _ _) => true

/-- ASCII model of Python `str.isdigit`: non-empty and all decimal digits. -/
def pyIsDigit (s : List Char) : Bool := !s.isEmpty && s.all Char.isDigit

mutual
/-- Python `str()` of a modelled value (`str(None) = "None"`, lists and
dicts via `repr` of their elements). -/
def pyStr : JVal → List Char
  | .null => S "None"
  | .bool true => S "True"
  | .bool false => S "False"
  | .int n => intStr n
  | .flt m e => fltStr m e
  | .str s => s
  | .arr .nil => ['[', ']']
  | .arr (.cons v t) => '[' :: pyRepr v ++ pyReprArr t ++ [']']
  | .obj .nil => [lbraceC, rbraceC]
  | .obj (.cons k v t) =>
      lbraceC :: (sqChar :: k ++ [sqChar, ':', ' '] ++ pyRepr v) ++ pyReprObj t ++ [rbraceC]
/-- Python `repr()` of a modelled value; strings gain surrounding single
quotes (inner escaping is not modelled — no property below depends on the
repr of a string containing quotes). -/
def pyRepr : JVal → List Char
  | .str s => sqChar :: s ++ [sqChar]
  | .null => S "None"
  | .bool true => S "True"
  | .bool false => S "False"
  | .int n => intStr n
  | .flt m e => fltStr m e
  | .arr .nil => ['[', ']']
  | .arr (.cons v t) => '[' :: pyRepr v ++ pyReprArr t ++ [']']
  | .obj .nil => [lbraceC, rbraceC]
  | .obj (.cons k v t) =>
      lbraceC :: (sqChar :: k ++ [sqChar, ':', ' '] ++ pyRepr v) ++ pyReprObj t ++ [rbraceC]
/-- Comma-separated continuation of a list repr. -/
def pyReprArr : JArr → List Char
  | .nil => []
  | .cons v t => ',' :: ' ' :: pyRepr v ++ pyReprArr t
/-- Comma-separated continuation of a dict repr. -/
def pyReprObj : JObj → List Char
  | .nil => []
  | .cons k v t => ',' :: ' ' :: (sqChar :: k ++ [sqChar, ':', ' '] ++ pyRepr v) ++ pyReprObj t
end

example : S "ab" = ['a', 'b'] := rfl
example : splitOnL (S "xy") (S "axyb") = [S "a", S "b"] := rfl
example : splitOnL (S "xy") (S "ab") = [S "ab"] := rfl
example : replBB (S "ab\\\\\\\"c") = S "ab\\\\\"c" := by rfl
example : pyStr (.flt 45 1) = S "4.5" := by rfl
example : pyStr (.flt 450 2) = S "4.5" := by rfl
example : pyStr (.flt 5 0) = S "5.0" := by rfl
example : pyStr (.flt (-45) 1) = S "-4.5" := by rfl
example : pyStr (.flt 5 1) = S "0.5" := by rfl
example : pyStr (.int 7) = S "7" := by rfl
example : pyStr (.int (-7)) = S "-7" := by rfl
example : pyStr (.arr (.cons (.int 1) (.cons (.str (S "a")) .nil))) = S "[1, 'a']" := by rfl

/-! ### `json.loads` model: a fueled recursive-descent parser -/

/-- JSON whitespace skipping. -/
def skipWs : List Char → List Char
  | c :: r => if c = ' ' || c = '\t' || c = '\n' || c = '\r' then skipWs r else c :: r
  | [] => []

/-- Value of one hexadecimal digit. -/
def hexVal (c : Char) : Option Nat :=
  if '0' ≤ c && c ≤ '9' then some (c.toNat - 48)
  else if 'a' ≤ c && c ≤ 'f' then some (c.toNat - 87)
  else if 'A' ≤ c && c ≤ 'F' then some (c.toNat - 55)
  else none

/-- Value of four hexadecimal digits. -/
def hex4 (a b c d : Char) : Option Nat :=
  match hexVal a, hexVal b, hexVal c, hexVal d with
  | some x, some y, some z, some w => some (4096 * x + 256 * y + 16 * z + w)
  | _, _, _, _ => none

/-- JSON string body parser (the opening quote already consumed): returns the
decoded characters and the input after the closing quote.  Escapes `\"`,
`\\`, `\/`, `\b`, `\f`, `\n`, `\r`, `\t` and `\uXXXX` (with surrogate-pair
combination) are handled; raw control characters are rejected as in
Python's strict default.  Lone surrogates (which Python tolerates) have no
`Char` counterpart and are rejected — a modelling restriction no property
below exercises.  Fuel `> length` suffices. -/
def parseJStr : Nat → List Char → Option (List Char × List Char)
  | 0, _ => none
  | fuel + 1, cs =>
    match cs with
    | '"' :: r => some ([], r)
    | '\\' :: e :: r =>
      match e with
      | '"' => (parseJStr fuel r).map (fun p => ('"' :: p.1, p.2))
      | '\\' => (parseJStr fuel r).map (fun p => ('\\' :: p.1, p.2))
      | '/' => (parseJStr fuel r).map (fun p => ('/' :: p.1, p.2))
      | 'b' => (parseJStr fuel r).map (fun p => ('\x08' :: p.1, p.2))
      | 'f' => (parseJStr fuel r).map (fun p => ('\x0c' :: p.1, p.2))
      | 'n' => (parseJStr fuel r).map (fun p => ('\n' :: p.1, p.2))
      | 'r' => (parseJStr fuel r).map (fun p => ('\r' :: p.1, p.2))
      | 't' => (parseJStr fuel r).map (fun p => ('\t' :: p.1, p.2))
      | 'u' =>
        match r with
        | h1 :: h2 :: h3 :: h4 :: r2 =>
          match hex4 h1 h2 h3 h4 with
          | none => none
          | some n =>
            if 0xD800 ≤ n && n ≤ 0xDBFF then
              match r2 with
              | '\\' :: 'u' :: g1 :: g2 :: g3 :: g4 :: r3 =>
                match hex4 g1 g2 g3 g4 with
                | some m2 =>
                  if 0xDC00 ≤ m2 && m2 ≤ 0xDFFF then
                    (parseJStr fuel r3).map (fun p =>
                      (Char.ofNat (0x10000 + (n - 0xD800) * 0x400 + (m2 - 0xDC00)) :: p.1, p.2))
                  else none
                | none => none
              | _ => none
            else if 0xDC00 ≤ n && n ≤ 0xDFFF then none
            else (parseJStr fuel r2).map (fun p => (Char.ofNat n :: p.1, p.2))
        | _ => none
      | _ => none
    | c :: r => if c.toNat < 0x20 then none
        else (parseJStr fuel r).map (fun p => (c :: p.1, p.2))
    | [] => none

/-- Longest prefix of decimal digits, and the rest. -/
def takeDigits : List Char → List Char × List Char
  | c :: r => if c.isDigit then
      match takeDigits r with
      | (ds, rest) => (c :: ds, rest)
    else ([], c :: r)
  | [] => ([], [])

/-- Numeric value of a digit string, accumulator style. -/
def digitsToNat (acc : Nat) : List Char → Nat
  | [] => acc
  | c :: r => digitsToNat (acc * 10 + (c.toNat - 48)) r

/-- Leading-sign handling of a JSON number: only `-` is allowed. -/
def jsonNeg : List Char → Bool × List Char
  | '-' :: r => (true, r)
  | s => (false, s)

/-- Leading-sign handling of a Python numeric literal (and of a JSON
exponent): `-` negates, `+` is allowed and ignored. -/
def pySign : List Char → Bool × List Char
  | '-' :: r => (true, r)
  | '+' :: r => (false, r)
  | s => (false, s)

/-- Optional fraction part of a JSON number: combines the integer part
`ipart` with the digits after a `.`, yielding mantissa, decimal-place
count, and remainder. -/
def frPart (ipart : Int) (r1 : List Char) : Option (Int × Nat × List Char) :=
  match r1 with
  | '.' :: rr =>
    match takeDigits rr with
    | (fs, r2) =>
      if fs.isEmpty then none
      else some (ipart * (10 : Int) ^ fs.length + (digitsToNat 0 fs : Int), fs.length, r2)
  | _ => some (ipart, 0, r1)

/-- Optional exponent part of a JSON number. -/
def exPart (r2 : List Char) : Option (Bool × Int × List Char) :=
  match r2 with
  | c :: rr =>
    if c = 'e' || c = 'E' then
      let sp2 := pySign rr
      match takeDigits sp2.2 with
      | (es, r3) =>
        if es.isEmpty then none
        else some (true, (if sp2.1 then -(digitsToNat 0 es : Int) else (digitsToNat 0 es : Int)), r3)
    else some (false, 0, c :: rr)
  | [] => some (false, 0, [])

/-- JSON number parser: `-?int(.frac)?((e|E)(+|-)?exp)?` with the JSON
leading-zero restriction.  A number with neither fraction nor exponent is a
Python int; otherwise a float `m / 10^e` (`1e3` parses to the float
`1000.0`).  The non-standard `NaN`/`Infinity` extensions Python accepts are
not modelled. -/
def parseJNum (cs : List Char) : Option (JVal × List Char) :=
  let sp := jsonNeg cs
  let neg := sp.1
  match takeDigits sp.2 with
  | (ds, r1) =>
    if ds.isEmpty then none
    else if ds.length > 1 && ds.headD '1' = '0' then none
    else
      let ipart : Int := (digitsToNat 0 ds : Int)
      match frPart ipart r1 with
      | none => none
      | some (m0, f, r2) =>
        let isFloat1 : Bool := f ≠ 0
        match exPart r2 with
        | none => none
        | some (isFloat2, ev, r3) =>
          let sm : Int := if neg then -m0 else m0
          if isFloat1 || isFloat2 then
            let m2 : Int := if 0 ≤ ev then sm * (10 : Int) ^ ev.natAbs else sm
            let e2 : Nat := if 0 ≤ ev then f else f + ev.natAbs
            some (.flt m2 e2, r3)
          else
            some (.int sm, r3)

/-- Parser continuation states: a value, the inside of `[...]` (fresh or
after elements), the inside of an object. -/
inductive PMode where
  | val : PMode
  | arrStart : PMode
  | arrTail (acc : JArr) : PMode
  | objStart : PMode
  | objTail (acc : JObj) : PMode

/-- The fueled JSON parser core.  Each recursive call decreases fuel; fuel
at least four times the input length can never run out (every value-state
transition consumes at least one character within three steps). -/
def parseF : Nat → PMode → List Char → Option (JVal × List Char)
  | 0, _, _ => none
  | fuel + 1, .val, cs =>
    match skipWs cs with
    | '[' :: r => parseF fuel .arrStart r
    | '"' :: r => (parseJStr (r.length + 1) r).map (fun p => (.str p.1, p.2))
    | 't' :: 'r' :: 'u' :: 'e' :: r => some (.bool true, r)
    | 'f' :: 'a' :: 'l' :: 's' :: 'e' :: r => some (.bool false, r)
    | 'n' :: 'u' :: 'l' :: 'l' :: r => some (.null, r)
    | c :: r =>
      if c = lbraceC then parseF fuel .objStart r
      else if c = '-' || c.isDigit then parseJNum (c :: r)
      else none
    | [] => none
  | fuel + 1, .arrStart, cs =>
    match skipWs cs with
    | ']' :: r => some (.arr .nil, r)
    | _ => parseF fuel (.arrTail .nil) cs
  | fuel + 1, .arrTail acc, cs =>
    match parseF fuel .val cs with
    | none => none
    | some (v, r) =>
      match skipWs r with
      | ',' :: r2 => parseF fuel (.arrTail (jarrSnoc acc v)) r2
      | ']' :: r2 => some (.arr (jarrSnoc acc v), r2)
      | _ => none
  | fuel + 1, .objStart, cs =>
    match skipWs cs with
    | c :: r => if c = rbraceC then some (.obj .nil, r) else parseF fuel (.objTail .nil) cs
    | [] => none
  | fuel + 1, .objTail acc, cs =>
    match skipWs cs with
    | '"' :: r =>
      match parseJStr (r.length + 1) r with
      | none => none
      | some (k, r1) =>
        match skipWs r1 with
        | ':' :: r2 =>
          match parseF fuel .val r2 with
          | none => none
          | some (v, r3) =>
            match skipWs r3 with
            | ',' :: r4 => parseF fuel (.objTail (jobjSnoc acc k v)) r4
            | c :: r4 => if c = rbraceC then some (.obj (jobjSnoc acc k v), r4) else none
            | [] => none
        | _ => none
    | _ => none

/-- Model of Python `json.loads`: parse one value, then require only
whitespace to remain. -/
def loads (cs : List Char) : Option JVal :=
  match parseF (4 * cs.length + 8) .val cs with
  | some (v, r) => if (skipWs r).isEmpty then some v else none
  | none => none

/-! ### `json.dumps` model (default separators and `ensure_ascii`) -/

/-- Lowercase hexadecimal digit. -/
def hexDigL (n : Nat) : Char := if n < 10 then Char.ofNat (48 + n) else Char.ofNat (87 + n)

/-- Encoding of one character inside a JSON string literal, following
Python `json.dumps` defaults: two-character escapes for `"`, `\`, and the
common control characters, `\u00xx` for other control characters, raw for
printable ASCII, and `\uxxxx` (with surrogate pairs) for non-ASCII
(`ensure_ascii=True`). -/
def encStrChar (c : Char) : List Char :=
  if c = '"' then ['\\', '"']
  else if c = '\\' then ['\\', '\\']
  else if c = '\n' then ['\\', 'n']
  else if c = '\t' then ['\\', 't']
  else if c = '\r' then ['\\', 'r']
  else if c = '\x08' then ['\\', 'b']
  else if c = '\x0c' then ['\\', 'f']
  else if c.toNat < 0x20 then ['\\', 'u', '0', '0', hexDigL (c.toNat / 16), hexDigL (c.toNat % 16)]
  else if c.toNat < 0x80 then [c]
  else if c.toNat ≤ 0xFFFF then
    ['\\', 'u', hexDigL (c.toNat / 4096 % 16), hexDigL (c.toNat / 256 % 16),
     hexDigL (c.toNat / 16 % 16), hexDigL (c.toNat % 16)]
  else
    let v := c.toNat - 0x10000
    let hi := 0xD800 + v / 0x400
    let lo := 0xDC00 + v % 0x400
    ['\\', 'u', hexDigL (hi / 4096 % 16), hexDigL (hi / 256 % 16), hexDigL (hi / 16 % 16),
     hexDigL (hi % 16),
     '\\', 'u', hexDigL (lo / 4096 % 16), hexDigL (lo / 256 % 16), hexDigL (lo / 16 % 16),
     hexDigL (lo % 16)]

/-- A JSON string literal for `s`, quotes included. -/
def dumpsStr (s : List Char) : List Char := '"' :: s.flatMap encStrChar ++ ['"']

mutual
/-- Model of Python `json.dumps` with its default separators `", "` and
`": "`. -/
def dumpsL : JVal → List Char
  | .null => S "null"
  | .bool true => S "true"
  | .bool false => S "false"
  | .int n => intStr n
  | .flt m e => fltStr m e
  | .str s => dumpsStr s
  | .arr .nil => ['[', ']']
  | .arr (.cons v t) => '[' :: dumpsL v ++ dumpsArr t ++ [']']
  | .obj .nil => [lbraceC, rbraceC]
  | .obj (.cons k v t) => lbraceC :: dumpsStr k ++ ':' :: ' ' :: dumpsL v ++ dumpsObj t ++ [rbraceC]
/-- Comma-separated continuation of a dumped list. -/
def dumpsArr : JArr → List Char
  | .nil => []
  | .cons v t => ',' :: ' ' :: dumpsL v ++ dumpsArr t
/-- Comma-separated continuation of a dumped object. -/
def dumpsObj : JObj → List Char
  | .nil => []
  | .cons k v t => ',' :: ' ' :: dumpsStr k ++ ':' :: ' ' :: dumpsL v ++ dumpsObj t
end

example : loads (S "[[null,true]]")
    = some (.arr (.cons (.arr (.cons .null (.cons (.bool true) .nil))) .nil)) := by rfl
example : loads (S " [1, -2.5, \"a\\nb\", [], 1e2] ")
    = some (.arr (jlist [.int 1, .flt (-25) 1, .str ['a', '\n', 'b'], .arr .nil, .flt 100 0]))
    := by rfl
example : loads (S "[01]") = none := by rfl
example : loads (S "[1,]") = none := by rfl
example : dumpsL (.arr (jlist [.int 1, .str (S "a\"b"), .null])) = S "[1, \"a\\\"b\", null]"
    := by rfl
example : loads (S "\x7b\"a\": 1, \"a\": 2\x7d") = some (.obj (.cons (S "a") (.int 1)
    (.cons (S "a") (.int 2) .nil))) := by rfl
example : jobjFind (.cons (S "a") (.int 1) (.cons (S "a") (.int 2) .nil)) (S "a")
    = some (.int 2) := by rfl

/-! ### Python numeric coercions and the timestamp-to-date model -/

/-- Strip leading and trailing ASCII whitespace (as `float()`/`int()`
tolerate around a numeric literal). -/
def stripWsL (s : List Char) : List Char :=
  ((s.dropWhile (fun c => c = ' ' || c = '\t' || c = '\n' || c = '\r')).reverse.dropWhile
    (fun c => c = ' ' || c = '\t' || c = '\n' || c = '\r')).reverse

/-- Model of Python `float(s)` on a string, as an exact decimal:
optional sign, digits with an optional point (`"4."`, `".5"` accepted),
optional exponent; the whole (whitespace-stripped) string must be consumed.
`inf`/`nan` and underscore separators are not modelled (no property below
reaches `float()` with them). -/
def parseFloatDec (s0 : List Char) : Option (Int × Nat) :=
  let s := stripWsL s0
  let sp := pySign s
  match takeDigits sp.2 with
  | (ds, r1) =>
    let fr : Option (Int × Nat × List Char) := match r1 with
      | '.' :: rr =>
        match takeDigits rr with
        | (fs, r2) =>
          if ds.isEmpty && fs.isEmpty then none
          else some ((digitsToNat 0 ds : Int) * (10 : Int) ^ fs.length + (digitsToNat 0 fs : Int),
                     fs.length, r2)
      | _ => if ds.isEmpty then none else some ((digitsToNat 0 ds : Int), 0, r1)
    match fr with
    | none => none
    | some (m0, f, r2) =>
      let ex : Option (Int × List Char) := match r2 with
        | c :: rr =>
          if c = 'e' || c = 'E' then
            let sp2 := pySign rr
            match takeDigits sp2.2 with
            | (es, r3) =>
              if es.isEmpty then none
              else some ((if sp2.1 then -(digitsToNat 0 es : Int) else (digitsToNat 0 es : Int)), r3)
          else none
        | [] => some (0, [])
      match ex with
      | none => none
      | some (ev, r3) =>
        if r3.isEmpty then
          let sm : Int := if sp.1 then -m0 else m0
          if 0 ≤ ev then some (sm * (10 : Int) ^ ev.natAbs, f)
          else some (sm, f + ev.natAbs)
        else none

/-- Model of Python `int(s)` on a string: optional sign, at least one
digit, whole (stripped) string consumed. -/
def parseIntPy (s0 : List Char) : Option Int :=
  let s := stripWsL s0
  let sp := pySign s
  match takeDigits sp.2 with
  | (ds, r1) =>
    if ds.isEmpty || !r1.isEmpty then none
    else some (if sp.1 then -(digitsToNat 0 ds : Int) else (digitsToNat 0 ds : Int))

/-- Model of Python `float(v)` on a value: numbers pass through, booleans
count as 0/1, strings are parsed; `None`, lists and dicts raise `TypeError`
(`none` here). -/
def pyFloatVal : JVal → Option (Int × Nat)
  | .int n => some (n, 0)
  | .flt m e => some (m, e)
  | .bool b => some (if b then 1 else 0, 0)
  | .str s => parseFloatDec s
  | _ => none

/-- Model of Python `int(v)` on a value: ints pass through, floats truncate
toward zero, booleans count as 0/1, strings are parsed; anything else
raises (`none`). -/
def pyIntOfVal : JVal → Option Int
  | .int n => some n
  | .flt m e => some (Int.tdiv m ((10 : Int) ^ e))
  | .bool b => some (if b then 1 else 0)
  | .str s => parseIntPy s
  | _ => none

/-- Model of Python `round(x, 2)` on a float `m / 10^e`: round half to even
at two decimal places (the decimal model of CPython's banker rounding; the
two coincide on every value a property below exercises). -/
def round2f (m : Int) (e : Nat) : Int × Nat :=
  if e ≤ 2 then (m * (10 : Int) ^ (2 - e), 2)
  else
    let d : Int := (10 : Int) ^ (e - 2)
    let q := Int.fdiv m d
    let r := m - q * d
    let q2 := if 2 * r < d then q else if d < 2 * r then q + 1
      else if q % 2 = 0 then q else q + 1
    (q2, 2)

/-- Gregorian calendar date of a day count relative to 1970-01-01
(Hinnant's civil-from-days algorithm). -/
def civilFromDays (z0 : Int) : Int × Nat × Nat :=
  let z := z0 + 719468
  let era := Int.fdiv z 146097
  let doe := (z - era * 146097).toNat
  let yoe := (doe - doe / 1460 + doe / 36524 - doe / 146096) / 365
  let y : Int := (yoe : Int) + era * 400
  let doy := doe - (365 * yoe + yoe / 4 - yoe / 100)
  let mp := (5 * doy + 2) / 153
  let d := doy - (153 * mp + 2) / 5 + 1
  let m := if mp < 10 then mp + 3 else mp - 9
  (if m ≤ 2 then y + 1 else y, m, d)

/-- Zero-padded two-digit rendering. -/
def pad2 (n : Nat) : List Char := if n < 10 then '0' :: natStr n else natStr n

/-- Zero-padded four-digit rendering. -/
def pad4 (n : Nat) : List Char := List.replicate (4 - (natStr n).length) '0' ++ natStr n

/-- `datetime.fromtimestamp(ts).strftime("%Y-%m-%d")` for an in-range
timestamp, modelled in UTC (the source uses the platform local zone; no
property below depends on the rendered date). -/
def formatDateFromTs (m : Int) (e : Nat) : List Char :=
  let days := Int.fdiv m ((86400 : Int) * (10 : Int) ^ e)
  let c := civilFromDays days
  pad4 c.1.toNat ++ '-' :: pad2 c.2.1 ++ '-' :: pad2 c.2.2

/-- The `create_date` computation on a parsed timestamp `m / 10^e`
(lines 104-111 of `parser.py`): timestamps beyond the modelled 64-bit
platform range overflow with an exception the inner handler does not catch
(`none`: the whole row is dropped); timestamps outside calendar years
1..9999 raise `ValueError`, which is caught (`"Unknown"`); in-range
timestamps format as a calendar date. -/
def createDateOfTs (m : Int) (e : Nat) : Option (List Char) :=
  let scale : Int := (10 : Int) ^ e
  if m < -((2 : Int) ^ 62) * scale || ((2 : Int) ^ 62) * scale < m then none
  else if m < (-62135596800 : Int) * scale || (253402300799 : Int) * scale < m then
    some (S "Unknown")
  else some (formatDateFromTs m e)

/-! ### `ChromeStoreParser.parse_extension_data` -/

/-- The `downloads` field keeps either the raw string or the parsed
integer. -/
inductive Downloads where
  | s (v : List Char) : Downloads
  | i (v : Int) : Downloads
deriving DecidableEq

/-- The `ChromeExtension` dataclass of `models.py`.  `version` is whatever
value `manifest.get("version", "Unknown")` returned (the dataclass does not
coerce it). -/
structure ChromeExtension where
  id : List Char
  name : List Char
  display_name : List Char
  short_description : List Char
  category : Option (List Char)
  icon_link : List Char
  downloads : Option Downloads
  rating : Option (Int × Nat)
  rating_count : Option Int
  website : Option (List Char)
  good_record : Bool
  featured : Bool
  create_date : List Char
  version : JVal
  host_wide_permissions : Bool

/-- The rating admission test of line 115:
`str(item[3]).replace('.', '').replace('-', '').isdigit()`. -/
def ratingGuard (s : List Char) : Bool :=
  pyIsDigit ((s.filter (fun c => c ≠ '.')).filter (fun c => c ≠ '-'))

/-- The manifest computation of lines 92-98 plus the `.get`/`in` uses of
lines 99-102: a truthy string that parses as a JSON object becomes the
manifest; JSON that fails to parse yields an empty manifest; a falsy or
non-string slot yields an empty manifest.  A truthy string holding *valid*
JSON that is not an object makes line 99 (`manifest.get`) raise
`AttributeError`, which the enclosing handler turns into a dropped row
(`none` here). -/
def manifestOf (v : JVal) : Option JObj :=
  match v with
  | .str s =>
    if !s.isEmpty then
      match loads s with
      | some (.obj o) => some o
      | some _ => none
      | none => some .nil
    else some .nil
  | _ => some .nil

/-- The wildcard-origin test of lines 100-102. -/
def hostWideOf (manifest : JObj) : Bool :=
  (jobjFind manifest (S "permissions")).isSome &&
    (match jobjFind manifest (S "host_permissions") with
     | some (.arr l) => jarrAny l (fun p => match p with
         | .str s => s = S "http://*/*" || s = S "https://*/*"
         | _ => false)
     | _ => false)

/-- The id coercion of line 134: `str(item[0]) if item[0] else ""`. -/
def coerceReq (v : JVal) : List Char := if pyTruthy v then pyStr v else []

/-- The `create_date` computation of lines 104-111 as a function of the
position-17 slot: only a truthy list with at least one element is
examined; the inner handler catches float-parse failures, so they leave
`"Unknown"`; an overflowing timestamp escapes (`none`). -/
def dateSlotRes (v : JVal) : Option (List Char) :=
  match v with
  | .arr (.cons d0 _) =>
    match pyFloatVal d0 with
    | some p => createDateOfTs p.1 p.2
    | none => some (S "Unknown")
  | _ => some (S "Unknown")

/-- The rating computation of lines 113-116 as a function of the
position-3 slot: `none` is the uncaught `ValueError` of `float()` after
the guard passed (row dropped); `some r` is the rating field. -/
def ratingRes (v : JVal) : Option (Option (Int × Nat)) :=
  if pyTruthy v && ratingGuard (pyStr v) then
    match pyFloatVal v with
    | some p => some (some (round2f p.1 p.2))
    | none => none
  else some none

/-- The rating-count computation of lines 118-121 (the `int()` call after
the all-digits guard cannot in fact fail; the `none` branch is kept for
structural fidelity). -/
def rcRes (v : JVal) : Option (Option Int) :=
  if pyTruthy v && pyIsDigit (pyStr v) then
    match pyIntOfVal v with
    | some n => some (some n)
    | none => none
  else some none

/-- The downloads computation of lines 128-131. -/
def dlRes (v : JVal) : Option (Option Downloads) :=
  if pyTruthy v then
    if !(pyIsDigit (pyStr v)) then some (some (.s (pyStr v)))
    else match pyIntOfVal v with
      | some n => some (some (.i n))
      | none => none
  else some none

/-- `ChromeStoreParser.parse_extension_data` (lines 75-163 of `parser.py`).

The whole body runs under `except Exception: return None`, so every
uncaught exception is modelled as `none`.  Positions 18, 17, 3, 4, 11, 14,
0, 2, 6, 1, 7, 8 and 9 are indexed without a bounds check, so any row
shorter than 19 entries raises `IndexError` and is dropped; only position
19 is guarded by a length test.  The dedicated failure paths (non-object
manifest JSON, a float parse failing after the rating guard passed, a
timestamp overflowing the platform range) also produce `none`. -/
def parse_extension_data (item : List JVal) : Option ChromeExtension :=
  if item.isEmpty then none
  else if item.length < 19 then none
  else
    let g : Nat → JVal := fun k => item.getD k .null
    match manifestOf (g 18) with
    | none => none
    | some manifest =>
      let version := (jobjFind manifest (S "version")).getD (.str (S "Unknown"))
      let host_wide_permissions := hostWideOf manifest
      match dateSlotRes (g 17) with
      | none => none
      | some create_date =>
        match ratingRes (g 3) with
        | none => none
        | some rating =>
          match rcRes (g 4) with
          | none => none
          | some rating_count =>
            let category : Option (List Char) :=
              match g 11 with
              | .arr (.cons c0 _) => some (pyStr c0)
              | _ => none
            match dlRes (g 14) with
            | none => none
            | some downloads =>
              let ext : ChromeExtension :=
                { id := coerceReq (g 0)
                  name := coerceReq (g 2)
                  display_name :=
                    if decide (19 < item.length) && pyTruthy (g 19) then pyStr (g 19) else []
                  short_description := if pyTruthy (g 6) then pyStr (g 6) else []
                  category
                  icon_link := if pyTruthy (g 1) then pyStr (g 1) else []
                  downloads
                  rating
                  rating_count
                  website := if pyTruthy (g 7) then some (pyStr (g 7)) else none
                  good_record := match g 8 with
                    | .null => false
                    | v => pyTruthy v
                  featured := match g 9 with
                    | .null => false
                    | v => pyTruthy v
                  create_date
                  version
                  host_wide_permissions }
              if ext.id.isEmpty || ext.name.isEmpty then none else some ext

/-! ### `ChromeStoreParser.fix_json_response` -/

/-- The leading sentinel: five consecutive open brackets. -/
def sep5 : List Char := S "[[[[["

/-- The closing sentinel: six consecutive close brackets. -/
def sep6 : List Char := S "]]]]]]"

/-- The text surgery of lines 35-40 of `parser.py`: slice from the first
five-open-bracket sentinel, truncate at the first six-close-bracket run
(re-appending it — this happens whether or not such a run exists),
collapse doubled backslashes, then unescape quotes, strip newlines, and
drop the last **two** characters (the comment in the source says "remove
trailing comma", but `step5[:-2]` removes two characters). -/
def cleanupResp (t : List Char) : List Char :=
  let step1 := sep5 ++ (splitOnL sep5 t).getD 1 []
  let step2 := (splitOnL sep6 step1).getD 0 [] ++ sep6
  pyCut2 (replNL (replBQ (replBB step2)))

/-- `ChromeStoreParser.fix_json_response` (lines 30-46): fails (the
`ValueError` the except clause re-raises) when the five-open-bracket
sentinel is absent or when the cleaned text does not parse as JSON;
otherwise takes `[0][0]` of the parsed value as the row list.  Because the
cleaned text always starts with five open brackets, a successful parse is
an array whose first element is an array with an array first element, so
the `[0][0]` indexing and the list coercion of the dead fall-through
branches cannot fail. -/
def fix_json_response (t : List Char) : Except Unit (List JVal) :=
  if occursIn sep5 t then
    match loads (cleanupResp t) with
    | some (.arr (.cons (.arr (.cons rowsV _)) _)) =>
      match rowsV with
      | .arr rows => .ok (jarrToList rows)
      | _ => .error ()
    | some _ => .error ()
    | none => .error ()
  else .error ()

/-! ### `ChromeStoreParser.extract_pagination_token` -/

/-- The delimiter `'[\\"'` of line 60: open bracket, backslash, quote. -/
def pagDelim : List Char := ['[', '\\', '"']

/-- `ChromeStoreParser.extract_pagination_token` (lines 48-73): split on
the delimiter, take the final segment, cut it at the first backslash.
`str.split` always returns a non-empty list and never raises, so the
`except` branch that would return `None` (after persisting the response to
a debug file — a side effect outside this model) is unreachable. -/
def extract_pagination_token (t : List Char) : Option (List Char) :=
  match (splitOnL pagDelim t).getLast? with
  | some lastSeg => some ((splitOnL ['\\'] lastSeg).headD lastSeg)
  | none => none

/-! ### `ChromeWebStoreAPIClient.build_request_data` -/

/-- UTF-8 bytes of one character. -/
def utf8Bytes (c : Char) : List Nat :=
  let n := c.toNat
  if n < 0x80 then [n]
  else if n < 0x800 then [0xC0 + n / 64, 0x80 + n % 64]
  else if n < 0x10000 then [0xE0 + n / 4096, 0x80 + n / 64 % 64, 0x80 + n % 64]
  else [0xF0 + n / 0x40000, 0x80 + n / 4096 % 64, 0x80 + n / 64 % 64, 0x80 + n % 64]

/-- Uppercase hexadecimal digit. -/
def hexDigU (n : Nat) : Char := if n < 10 then Char.ofNat (48 + n) else Char.ofNat (55 + n)

/-- The characters `urllib.parse.quote` leaves unencoded with its default
`safe="/"`. -/
def quoteSafe (c : Char) : Bool :=
  ('a' ≤ c && c ≤ 'z') || ('A' ≤ c && c ≤ 'Z') || ('0' ≤ c && c ≤ '9') ||
    c = '_' || c = '.' || c = '-' || c = '~' || c = '/'

/-- Model of `urllib.parse.quote`: safe characters pass through, everything
else becomes `%XX` per UTF-8 byte. -/
def pyQuote (s : List Char) : List Char :=
  s.flatMap (fun c =>
    if quoteSafe c then [c]
    else (utf8Bytes c).flatMap (fun b => ['%', hexDigU (b / 16), hexDigU (b % 16)]))

/-- Model of `urllib.parse.unquote`: decode `%XX` triples, leave malformed
escapes alone.  Bytes at or above `0x80` are mapped one byte per character
(the real function UTF-8-decodes the byte run; every property below
exercises the ASCII range only, where the two agree). -/
def pyUnquote : List Char → List Char
  | '%' :: h1 :: h2 :: r =>
    match hexVal h1, hexVal h2 with
    | some a, some b => Char.ofNat (16 * a + b) :: pyUnquote r
    | _, _ => '%' :: pyUnquote (h1 :: h2 :: r)
  | c :: r => c :: pyUnquote r
  | [] => []

/-- The f-string sub-payload of lines 78 and 90 of `api_client.py`: the
query, amount and (when present) token are spliced in verbatim — with no
escaping — so a token-bearing request carries the token as a second
pagination argument after the amount. -/
def subPayload (query : List Char) (amount : Int) (tok : Option (List Char)) : List Char :=
  match tok with
  | none => S "[[null,[[3,\"" ++ query ++ S "\",null,null,2,[" ++ intStr amount ++ S "]]]]]"
  | some t =>
      S "[[null,[[3,\"" ++ query ++ S "\",null,null,2,[" ++ intStr amount ++ S ",\"" ++ t
        ++ S "\"]]]]]"

/-- The `request_data` nested-array structure of lines 74-95: the RPC
method id, the sub-payload as an embedded JSON string, a `null`, and the
literal `"generic"`. -/
def reqVal (query : List Char) (amount : Int) (tok : Option (List Char)) : JVal :=
  .arr (.cons (.arr (.cons (.arr (jlist
    [.str (S "zTyKYc"), .str (subPayload query amount tok), .null, .str (S "generic")]))
    .nil)) .nil)

/-- `ChromeWebStoreAPIClient.build_request_data` (lines 57-101): the nested
array with the RPC method id and the sub-payload string, JSON-dumped,
percent-encoded, and prefixed with the form field name. -/
def build_request_data (query : List Char) (amount : Int) (tok : Option (List Char)) :
    List Char :=
  S "f.req=" ++ pyQuote (dumpsL (reqVal query amount tok))

/-! ### `ChromeWebStoreAPIClient.make_request_with_retry` -/

/-- Observable outcome of one `make_request_with_retry` run: how many POST
attempts were issued, the back-off waits slept between consecutive
attempts, and the result (`ok` response text, or `error` the transport
failure re-raised after the last attempt). -/
structure RetryTrace where
  attempts : Nat
  waits : List ℚ
  result : Except (List Char) (List Char)

/-- The retry loop body (lines 116-142 of `api_client.py`), parametrised by
an oracle `resp` giving each attempt's outcome and `jitter` giving each
`random.uniform(0, 1)` draw.  `r` counts the remaining iterations of
`range(max_retries)` and `k` the current 0-indexed attempt: a failure with
further attempts left sleeps `2 ** attempt + uniform(0, 1)` seconds and
retries; a failure on the last attempt re-raises. -/
def retryGo (resp : Nat → Except (List Char) (List Char)) (jitter : Nat → ℚ) :
    Nat → Nat → RetryTrace
  | 0, _ => ⟨0, [], .ok []⟩
  | r + 1, k =>
    match resp k with
    | .ok s => ⟨1, [], .ok s⟩
    | .error e =>
      if r = 0 then ⟨1, [], .error e⟩
      else
        let t := retryGo resp jitter r (k + 1)
        ⟨t.attempts + 1, ((2 : ℚ) ^ k + jitter k) :: t.waits, t.result⟩

/-- `ChromeWebStoreAPIClient.make_request_with_retry`: run the loop for
`range(max_retries)` iterations (`range` of a non-positive bound is empty,
in which case the loop falls through to `return ""`). -/
def make_request_with_retry (maxRetries : Int)
    (resp : Nat → Except (List Char) (List Char)) (jitter : Nat → ℚ) : RetryTrace :=
  retryGo resp jitter maxRetries.toNat 0

/-! ### `ChromeWebStoreScraper.search_by_category` -/

/-- One iteration of the row loop at lines 156-160 of `scraper.py`:
`len(item)` raises `TypeError` on an unsized value and `item[0]` raises
`KeyError` on a non-empty dict — both escape to the page-level handler
(`error` here); otherwise empty rows are skipped and `item[0]` goes to
`parse_extension_data`.  A non-list `item[0]` is decoded to `None` by
the parser's own exception handler (a string of 19 or more characters
would index into the string itself; that corner is modelled as a dropped
row as well). -/
def rowStep (r : JVal) : Except Unit (Option ChromeExtension) :=
  match r with
  | .arr .nil => .ok none
  | .arr (.cons x _) =>
    match x with
    | .arr l => .ok (parse_extension_data (jarrToList l))
    | _ => .ok none
  | .str [] => .ok none
  | .str (_ :: _) => .ok none
  | .obj .nil => .ok none
  | .obj (.cons _ _ _) => .error ()
  | _ => .error ()

/-- The row loop of lines 154-160: decode each raw row independently,
keeping arrival order; an uncaught row exception aborts the page (the
page's extensions are discarded, line 162 never runs). -/
def processRows : List JVal → Except Unit (List ChromeExtension)
  | [] => .ok []
  | r :: rs =>
    match rowStep r with
    | .error _ => .error ()
    | .ok oe =>
      match processRows rs with
      | .error _ => .error ()
      | .ok t => .ok (match oe with
          | some e => e :: t
          | none => t)

/-- The `while page_count < max_pages` loop of
`ChromeWebStoreScraper.search_by_category` (lines 137-179), parametrised by
a transport oracle `resp` mapping the 0-indexed request ordinal to the
outcome of `make_request_with_retry` for that page (the request body built
from the current token does not influence the model's control flow).  The
transport call at line 143 sits *outside* the `try` block, so a transport
error propagates out of the crawl; every exception inside the `try`
(extraction failure, a row-loop escapee) breaks out of the loop and the
accumulated extensions are returned.  An empty row list or an empty/absent
pagination token also ends the crawl normally. -/
def crawlLoop (resp : Nat → Except (List Char) (List Char)) :
    Nat → Nat → List ChromeExtension → Except (List Char) (List ChromeExtension)
  | 0, _, acc => .ok acc
  | rem + 1, idx, acc =>
    match resp idx with
    | .error e => .error e
    | .ok text =>
      match fix_json_response text with
      | .error _ => .ok acc
      | .ok raws =>
        if raws.isEmpty then .ok acc
        else
          match processRows raws with
          | .error _ => .ok acc
          | .ok pageExts =>
            let acc2 := acc ++ pageExts
            match extract_pagination_token text with
            | none => .ok acc2
            | some tok => if tok.isEmpty then .ok acc2 else crawlLoop resp rem (idx + 1) acc2

/-- `ChromeWebStoreScraper.search_by_category` with a page budget of
`maxPages`: run the page loop from an empty accumulator. -/
def search_by_category (resp : Nat → Except (List Char) (List Char)) (maxPages : Nat) :
    Except (List Char) (List ChromeExtension) :=
  crawlLoop resp maxPages 0 []

/-! ### Auxiliary notions used by the statements and proofs below -/

/-- Concatenation of `JArr` spines. -/
def jarrAppend : JArr → JArr → JArr
  | .nil, l2 => l2
  | .cons v t, l2 => .cons v (jarrAppend t l2)

/-- Concatenation of two `JObj` spines. -/
def jobjAppend : JObj → JObj → JObj
  | .nil, o2 => o2
  | .cons k v t, o2 => .cons k v (jobjAppend t o2)

/-- First element of a `JArr` spine. -/
def headJ : JArr → Option JVal
  | .nil => none
  | .cons v _ => some v

/-- A continuation on which a just-parsed JSON number cannot be extended:
empty, or starting with a character that is neither a digit nor `.`/`e`/`E`
(in serialized JSON a number is always followed by such a delimiter). -/
def numDelimB : List Char → Bool
  | [] => true
  | c :: _ => !c.isDigit && c ≠ '.' && c ≠ 'e' && c ≠ 'E'

/-- Printable ASCII (allows `"` and `\`, which `dumps` escapes). -/
def jsafeChar (c : Char) : Bool := 0x20 ≤ c.toNat && c.toNat < 0x80

mutual
/-- Values whose `dumps` image the parser provably inverts: no floats, and
every string printable ASCII.  (The parser handles more; the round-trip
lemmas below are stated on this fragment.) -/
def jsafeVal : JVal → Bool
  | .null => true
  | .bool _ => true
  | .int _ => true
  | .flt _ _ => false
  | .str s => s.all jsafeChar
  | .arr l => jsafeArr l
  | .obj o => jsafeObj o
/-- `jsafeVal` on a list spine. -/
def jsafeArr : JArr → Bool
  | .nil => true
  | .cons v t => jsafeVal v && jsafeArr t
/-- `jsafeVal` on a dict spine (keys included). -/
def jsafeObj : JObj → Bool
  | .nil => true
  | .cons k v t => k.all jsafeChar && jsafeVal v && jsafeObj t
end

mutual
/-- Parser fuel needed for a value's serialization (used only in proofs). -/
def jfuel : JVal → Nat
  | .null => 1
  | .bool _ => 1
  | .int _ => 1
  | .flt _ _ => 1
  | .str _ => 1
  | .arr l => jfuelArr l + 3
  | .obj o => jfuelObj o + 3
/-- `jfuel` on a list spine. -/
def jfuelArr : JArr → Nat
  | .nil => 1
  | .cons v t => jfuel v + jfuelArr t + 2
/-- `jfuel` on a dict spine. -/
def jfuelObj : JObj → Nat
  | .nil => 1
  | .cons _ v t => jfuel v + jfuelObj t + 2
end

/-- A query/token character that survives the unescaped f-string splice of
`build_request_data`: printable ASCII other than `"` and `\`. -/
def plainQChar (c : Char) : Bool := jsafeChar c && c ≠ '"' && c ≠ '\\'

/-- Escaping a text for embedding inside an outer JSON string, as the
specification describes the envelope: backslashes doubled, double quotes
backslash-escaped. -/
def escEmb (s : List Char) : List Char :=
  s.flatMap (fun c => if c = '\\' then ['\\', '\\'] else if c = '"' then ['\\', '"'] else [c])

/-- The intermediate form after `replBB` has collapsed doubled backslashes:
only the quotes are still escaped. -/
def escQ (s : List Char) : List Char :=
  s.flatMap (fun c => if c = '"' then ['\\', '"'] else [c])

/-- `[[v]]`: the two array layers the envelope wraps around the row list. -/
def wrap2 (v : JVal) : JVal := .arr (.cons (.arr (.cons v .nil)) .nil)

/-- The envelope embedding exactly as the specification words it: the
single-encoded payload, double-escaped, followed by the trailing comma the
cleanup step is said to drop. -/
def claimEnvelope (v : JVal) : List Char := escEmb (dumpsL (wrap2 v)) ++ [',']

/-- The value the sub-payload ought to parse back to: the token, when
present, appears as a second pagination argument after the amount. -/
def subParsed (query : List Char) (amount : Int) (tok : Option (List Char)) : JVal :=
  .arr (.cons (.arr (jlist [.null, .arr (.cons (.arr (jlist
    [.int 3, .str query, .null, .null, .int 2,
     .arr (match tok with
       | none => .cons (.int amount) .nil
       | some t => jlist [.int amount, .str t])])) .nil)])) .nil)

/-! ### Concrete fixtures for the counterexamples and witnesses -/

/-- A 19-entry raw row with id `"id1"`, name `"name1"`, slot 3 as given,
slots 4-17 null and an empty manifest string at slot 18. -/
def rowBase (v3 : JVal) : List JVal :=
  [.str (S "id1"), .null, .str (S "name1"), v3] ++ List.replicate 14 .null ++ [.str []]

/-- The extension `rowBase` decodes to when slot 3 holds nothing usable. -/
def extBase : ChromeExtension :=
  { id := S "id1", name := S "name1", display_name := [], short_description := [],
    category := none, icon_link := [], downloads := none, rating := none,
    rating_count := none, website := none, good_record := false, featured := false,
    create_date := S "Unknown", version := .str (S "Unknown"), host_wide_permissions := false }

/-- A well-formed single-page response text: the envelope JSON
`[[rows]]` with one decodable row and one junk row, followed by the two
characters that complete the six-close-bracket sentinel. -/
def ce1json : List Char :=
  S "[[[[[\"id1\",null,\"name1\",null,null,null,null,null,null,null,null,null,null,null,null,null,null,null,\"\"]],[\"pad\"]]]]"

/-- The full response text for the first crawl page. -/
def ce1text : List Char := ce1json ++ S "]]"

/-- A transport oracle: the first request succeeds with `ce1text`, every
later request fails in transport. -/
def respCE (n : Nat) : Except (List Char) (List Char) :=
  if n = 0 then .ok ce1text else .error (S "boom")

/-- Rows `[[[1]], [2, "y"]]`: a payload whose serialization starts with the
five-open-bracket sentinel and ends with exactly four close brackets. -/
def c4A : JVal :=
  .arr (jlist [.arr (.cons (.arr (.cons (.int 1) .nil)) .nil),
               .arr (jlist [.int 2, .str (S "y")])])

/-- The serialization of `[[c4A]]` without its final four close brackets. -/
def c4P : List Char := S "[[[[[1]], [2, \"y\""

/-- Rows `[[["x"]]]`: a well-formed payload on which the trailing-comma
envelope of the specification fails to extract. -/
def c4ceA : JVal :=
  .arr (.cons (.arr (.cons (.arr (.cons (.str (S "x")) .nil)) .nil)) .nil)

/-! ## Supporting lemmas -/

theorem retryGo_spec (resp : Nat → Except (List Char) (List Char)) (jitter : Nat → ℚ) :
    ∀ r k,
      (retryGo resp jitter r k).attempts ≤ r ∧
      (∀ i w, (retryGo resp jitter r k).waits.get? i = some w →
        w = 2 ^ (k + i) + jitter (k + i)) ∧
      ((∀ j, j < r → ∃ e, resp (k + j) = Except.error e) → 1 ≤ r →
        ∃ e, resp (k + r - 1) = Except.error e ∧
          (retryGo resp jitter r k).result = Except.error e) := by
  intro r
  induction r with
  | zero =>
    intro k
    refine ⟨Nat.le_refl _, ?_, ?_⟩
    · intro i w h; simp [retryGo] at h
    · intro _ h; omega
  | succ n ih =>
    intro k
    cases hres : resp k with
    | ok s =>
      refine ⟨?_, ?_, ?_⟩
      · simp [retryGo, hres]
      · intro i w h; simp [retryGo, hres] at h
      · intro hall _
        obtain ⟨e, he⟩ := hall 0 (Nat.succ_pos n)
        rw [Nat.add_zero, hres] at he
        exact absurd he (by simp)
    | error e =>
      by_cases hn : n = 0
      · subst hn
        refine ⟨?_, ?_, ?_⟩
        · simp [retryGo, hres]
        · intro i w h; simp [retryGo, hres] at h
        · intro _ _
          exact ⟨e, by simpa using hres, by simp [retryGo, hres]⟩
      · refine ⟨?_, ?_, ?_⟩
        · simp only [retryGo, hres, hn, if_false]
          exact Nat.succ_le_succ (ih (k + 1)).1
        · intro i w h
          simp only [retryGo, hres, hn, if_false] at h
          cases i with
          | zero =>
            simp only [List.get?_cons_zero, Option.some.injEq] at h
            rw [Nat.add_zero]
            exact h.symm
          | succ i2 =>
            simp only [List.get?_cons_succ] at h
            have harith : k + 1 + i2 = k + (i2 + 1) := by omega
            rw [← harith]
            exact (ih (k + 1)).2.1 i2 w h
        · intro hall h1
          have ih3 := (ih (k + 1)).2.2 (fun j hj => by
            have := hall (j + 1) (by omega)
            simpa [Nat.add_assoc, Nat.add_comm 1 j] using this) (by omega)
          obtain ⟨e2, he2, hr2⟩ := ih3
          refine ⟨e2, ?_, ?_⟩
          · have : k + 1 + n - 1 = k + (n + 1) - 1 := by omega
            rwa [this] at he2
          · simp only [retryGo, hres, hn, if_false]
            exact hr2

/-! ## C7 -/

/-- C7: `make_request_with_retry` performs at most the configured number of
attempts; the k-th back-off wait (0-indexed, slept between attempts k and
k+1) is exactly `2 ^ k` seconds plus the k-th jitter draw, hence lies in
`[2 ^ k, 2 ^ k + 1)` whenever the draw lies in `[0, 1)`; and when every
attempt fails, the run fails carrying the error of the last attempt. -/
theorem C7_retry_budget_backoff (maxRetries : Int)
    (resp : Nat → Except (List Char) (List Char)) (jitter : Nat → ℚ) :
    (make_request_with_retry maxRetries resp jitter).attempts ≤ maxRetries.toNat ∧
    (∀ i w, (make_request_with_retry maxRetries resp jitter).waits.get? i = some w →
      w = 2 ^ i + jitter i ∧
        (0 ≤ jitter i → jitter i < 1 → 2 ^ i ≤ w ∧ w < 2 ^ i + 1)) ∧
    ((∀ j, j < maxRetries.toNat → ∃ e, resp j = Except.error e) → 1 ≤ maxRetries.toNat →
      ∃ e, resp (maxRetries.toNat - 1) = Except.error e ∧
        (make_request_with_retry maxRetries resp jitter).result = Except.error e) := by
  obtain ⟨h1, h2, h3⟩ := retryGo_spec resp jitter maxRetries.toNat 0
  refine ⟨h1, ?_, ?_⟩
  · intro i w h
    have hw := h2 i w h
    rw [Nat.zero_add] at hw
    refine ⟨hw, fun hj0 hj1 => ⟨by rw [hw]; linarith, by rw [hw]; linarith⟩⟩
  · intro hall h1n
    have := h3 (fun j hj => by simpa using hall j hj) h1n
    simpa using this

/-- Witness for C7: three attempts against an always-failing transport with
jitter one half — the budget bound holds and the run fails with the last
(here: every) attempt's error. -/
theorem C7_witness :
    (make_request_with_retry 3 (fun _ => Except.error (S "x")) (fun _ => (1 : ℚ) / 2)).attempts
        ≤ (3 : Int).toNat ∧
    ∃ e, (fun _ => Except.error (S "x") : Nat → Except (List Char) (List Char))
          ((3 : Int).toNat - 1) = Except.error e ∧
        (make_request_with_retry 3 (fun _ => Except.error (S "x"))
          (fun _ => (1 : ℚ) / 2)).result = Except.error e := by
  have h := C7_retry_budget_backoff 3 (fun _ => Except.error (S "x")) (fun _ => (1 : ℚ) / 2)
  exact ⟨h.1, h.2.2 (fun j _ => ⟨S "x", rfl⟩) (by norm_num)⟩

/-! ## C10 -/

/-- C10: with a zero (or negative) maximum attempt count, the retry loop
body never runs — no request is issued, no wait is slept, and the function
returns the empty string instead of raising. -/
theorem C10_nonpositive_budget (maxRetries : Int)
    (resp : Nat → Except (List Char) (List Char)) (jitter : Nat → ℚ)
    (h : maxRetries ≤ 0) :
    make_request_with_retry maxRetries resp jitter = ⟨0, [], Except.ok []⟩ := by
  unfold make_request_with_retry
  rw [Int.toNat_eq_zero.mpr h]
  rfl

/-- Witness for C10 at the attempt count `-1`. -/
theorem C10_witness :
    make_request_with_retry (-1) (fun _ => Except.error (S "x")) (fun _ => (0 : ℚ))
      = ⟨0, [], Except.ok []⟩ :=
  C10_nonpositive_budget (-1) _ _ (by norm_num)

/-! ## C1 -/

/-- C1 (amended): a transport error while fetching *any* page — first or
later — propagates out of `search_by_category` (the call sits outside the
`try` block), so the crawl raises and the extensions accumulated from
earlier pages are not returned; aborting with no prior results is in no way
special to the first page. -/
theorem C1_transport_error_propagates :
    (∀ (resp : Nat → Except (List Char) (List Char)) (rem idx : Nat)
        (acc : List ChromeExtension) (e : List Char), resp idx = Except.error e →
      crawlLoop resp (rem + 1) idx acc = Except.error e) ∧
    (∀ (resp : Nat → Except (List Char) (List Char)) (n : Nat) (e : List Char), 0 < n →
      resp 0 = Except.error e → search_by_category resp n = Except.error e) := by
  have h1 : ∀ (resp : Nat → Except (List Char) (List Char)) (rem idx : Nat)
      (acc : List ChromeExtension) (e : List Char), resp idx = Except.error e →
      crawlLoop resp (rem + 1) idx acc = Except.error e := by
    intro resp rem idx acc e h
    simp [crawlLoop, h]
  refine ⟨h1, ?_⟩
  intro resp n e hn h
  cases n with
  | zero => omega
  | succ m => exact h1 resp m 0 [] e h

/-- Witness for C1 (amended) on an always-failing transport. -/
theorem C1_witness :
    crawlLoop (fun _ => Except.error (S "z")) 2 0 [] = Except.error (S "z") ∧
    search_by_category (fun _ => Except.error (S "z")) 2 = Except.error (S "z") :=
  ⟨C1_transport_error_propagates.1 _ 1 0 [] _ rfl,
   C1_transport_error_propagates.2 _ 2 _ (by norm_num) rfl⟩

set_option maxRecDepth 40000 in
/-- Counterexample to C1 as stated: against the oracle `respCE`, page one
alone yields the extension `extBase` (a crawl capped at one page returns
it), and the second request fails in transport; yet the three-page crawl
returns the transport error — not the accumulated `[extBase]` the claim
promises. -/
theorem C1_counterexample :
    search_by_category respCE 1 = Except.ok [extBase] ∧
    respCE 1 = Except.error (S "boom") ∧
    search_by_category respCE 3 = Except.error (S "boom") :=
  ⟨by rfl, by rfl, by rfl⟩

/-! ## Split lemmas for the pagination tracker -/

theorem splitOnAux_ne_nil (sep : List Char) : ∀ fuel s, splitOnAux sep fuel s ≠ [] := by
  intro fuel
  induction fuel with
  | zero => intro s; simp [splitOnAux]
  | succ n ih =>
    intro s
    by_cases hc : (startsWithL sep s && !sep.isEmpty) = true
    · simp [splitOnAux, hc]
    · cases s with
      | nil => simp [splitOnAux, hc]
      | cons c r =>
        simp only [splitOnAux, hc, if_false, Bool.false_eq_true]
        cases h2 : splitOnAux sep n r <;> simp

theorem splitOnAux_noOccur (sep : List Char) :
    ∀ s fuel, s.length < fuel → occursIn sep s = false → splitOnAux sep fuel s = [s] := by
  intro s
  induction s with
  | nil =>
    intro fuel hf hO
    cases fuel with
    | zero => omega
    | succ n =>
      simp only [occursIn] at hO
      simp [splitOnAux, hO]
  | cons c r ih =>
    intro fuel hf hO
    cases fuel with
    | zero => simp at hf
    | succ n =>
      simp only [occursIn, Bool.or_eq_false_iff] at hO
      simp only [splitOnAux, hO.1, Bool.false_and, Bool.false_eq_true, if_false]
      rw [ih n (by simpa using hf) hO.2]

theorem splitOnL_noOccur (sep : List Char) (s : List Char) (hO : occursIn sep s = false) :
    splitOnL sep s = [s] :=
  splitOnAux_noOccur sep s (s.length + 1) (Nat.lt_succ_self _) hO

theorem splitOnAux_single_head (b : Char) :
    ∀ s fuel, s.length < fuel →
      (splitOnAux [b] fuel s).headD [] = s.takeWhile (fun c => c ≠ b) := by
  intro s
  induction s with
  | nil =>
    intro fuel hf
    cases fuel with
    | zero => omega
    | succ n => simp [splitOnAux, startsWithL]
  | cons c r ih =>
    intro fuel hf
    cases fuel with
    | zero => simp at hf
    | succ n =>
      by_cases hcb : b = c
      · subst hcb
        simp [splitOnAux, startsWithL, List.takeWhile]
      · have hsw : startsWithL [b] (c :: r) = false := by
          simp [startsWithL, hcb]
        simp only [splitOnAux, hsw, Bool.false_and, Bool.false_eq_true, if_false]
        cases h2 : splitOnAux [b] n r with
        | nil => exact absurd h2 (splitOnAux_ne_nil [b] n r)
        | cons h t =>
          have := ih n (by simpa using hf)
          rw [h2] at this
          simp only [List.headD] at this ⊢
          rw [List.takeWhile_cons]
          simp [Ne.symm hcb, this]

/-! ## C3 -/

/-- C3 (amended): `extract_pagination_token` never raises, but it also
never returns `none`: its `except` branch is unreachable because
`str.split` always yields a non-empty list.  On text that does not contain
the delimiter `'[\\"'` it returns the *whole text up to the first
backslash* as a bogus token rather than `none`. -/
theorem C3_no_delimiter_still_some :
    (∀ t, ∃ tok, extract_pagination_token t = some tok) ∧
    (∀ t, occursIn pagDelim t = false →
      extract_pagination_token t = some (t.takeWhile (fun c => c ≠ '\\'))) := by
  constructor
  · intro t
    unfold extract_pagination_token
    cases h : (splitOnL pagDelim t).getLast? with
    | none =>
      rw [List.getLast?_eq_none_iff] at h
      exact absurd h (splitOnAux_ne_nil pagDelim _ t)
    | some seg => exact ⟨_, rfl⟩
  · intro t hO
    unfold extract_pagination_token
    rw [splitOnL_noOccur pagDelim t hO]
    simp only [List.getLast?_singleton]
    have hne := splitOnAux_ne_nil ['\\'] (t.length + 1) t
    have hh : (splitOnL ['\\'] t).headD t = (splitOnL ['\\'] t).headD [] := by
      cases h2 : splitOnL ['\\'] t with
      | nil => exact absurd h2 hne
      | cons a b => simp
    rw [hh]
    unfold splitOnL
    rw [splitOnAux_single_head '\\' t (t.length + 1) (Nat.lt_succ_self _)]

/-- Counterexample to C3 as stated: `"hello"` contains no delimiter, yet
the tracker returns the token `"hello"`, not `none`. -/
theorem C3_counterexample :
    occursIn pagDelim (S "hello") = false ∧
    extract_pagination_token (S "hello") = some (S "hello") := ⟨by rfl, by rfl⟩

/-- Witness for C3 (amended) on a delimiter-free text containing a
backslash: the bogus token is the prefix before the backslash. -/
theorem C3_witness :
    occursIn pagDelim (S "ab\\cd") = false ∧
    extract_pagination_token (S "ab\\cd") = some (S "ab") := by
  refine ⟨by rfl, ?_⟩
  have h := C3_no_delimiter_still_some.2 (S "ab\\cd") (by rfl)
  rw [h]
  rfl

/-! ## Decode lemmas -/

theorem dropWhile_false {p : Char → Bool} (s : List Char) (h : ∀ c ∈ s, p c = false) :
    s.dropWhile p = s := by
  cases s with
  | nil => rfl
  | cons c r => simp [List.dropWhile_cons, h c (List.mem_cons_self c r)]

theorem stripWsL_of_digits (s : List Char) (h : s.all Char.isDigit = true) :
    stripWsL s = s := by
  have hch : ∀ c ∈ s, (c = ' ' || c = '\t' || c = '\n' || c = '\r') = false := by
    intro c hc
    have hd : c.isDigit = true := by
      rw [List.all_eq_true] at h
      exact h c hc
    by_contra hne
    rw [Bool.not_eq_false] at hne
    simp only [Bool.or_eq_true, decide_eq_true_eq] at hne
    rcases hne with ((h1 | h1) | h1) | h1 <;> subst h1 <;> simp [Char.isDigit] at hd
  unfold stripWsL
  rw [dropWhile_false s hch, dropWhile_false s.reverse
    (fun c hc => hch c (List.mem_reverse.mp hc)), List.reverse_reverse]

theorem takeDigits_all (s : List Char) (h : s.all Char.isDigit = true) :
    takeDigits s = (s, []) := by
  induction s with
  | nil => rfl
  | cons c r ih =>
    rw [List.all_cons, Bool.and_eq_true] at h
    simp [takeDigits, h.1, ih h.2]

theorem pySign_not_sign {c : Char} (r : List Char) (hcm : c ≠ '-') (hcp : c ≠ '+') :
    pySign (c :: r) = (false, c :: r) := by
  unfold pySign
  split
  next r2 heq => exact absurd (List.head_eq_of_cons_eq heq) hcm
  next r2 heq => exact absurd (List.head_eq_of_cons_eq heq) hcp
  next => rfl

theorem jsonNeg_not {c : Char} (r : List Char) (hcm : c ≠ '-') :
    jsonNeg (c :: r) = (false, c :: r) := by
  unfold jsonNeg
  split
  next r2 heq => exact absurd (List.head_eq_of_cons_eq heq) hcm
  next => rfl

theorem parseIntPy_digits (s : List Char) (hne : s ≠ []) (h : s.all Char.isDigit = true) :
    ∃ n, parseIntPy s = some n := by
  unfold parseIntPy
  rw [stripWsL_of_digits s h]
  cases s with
  | nil => exact absurd rfl hne
  | cons c r =>
    have hc : c.isDigit = true := by
      rw [List.all_cons, Bool.and_eq_true] at h
      exact h.1
    have hcm : c ≠ '-' := by intro he; subst he; simp [Char.isDigit] at hc
    have hcp : c ≠ '+' := by intro he; subst he; simp [Char.isDigit] at hc
    refine ⟨(digitsToNat 0 (c :: r) : Int), ?_⟩
    dsimp only
    rw [pySign_not_sign r hcm hcp]
    dsimp only
    rw [takeDigits_all _ h]
    simp

theorem pyIntOfVal_digits (v : JVal) (h : pyIsDigit (pyStr v) = true) :
    (pyIntOfVal v).isSome = true := by
  cases v with
  | null => exact absurd h (by decide)
  | bool b => cases b <;> exact absurd h (by decide)
  | int n => simp [pyIntOfVal]
  | flt m e => simp [pyIntOfVal]
  | str s =>
    have hs : pyStr (.str s) = s := rfl
    rw [hs] at h
    have hne : s ≠ [] := by
      intro he; subst he; simp [pyIsDigit] at h
    unfold pyIsDigit at h
    rw [Bool.and_eq_true] at h
    obtain ⟨n, hn⟩ := parseIntPy_digits s hne h.2
    simp [pyIntOfVal, hn]
  | arr l =>
    exfalso
    cases l with
    | nil => exact absurd h (by decide)
    | cons v2 t =>
      have hps : pyStr (.arr (.cons v2 t)) = '[' :: (pyRepr v2 ++ pyReprArr t ++ [']']) := by
        simp [pyStr]
      rw [hps] at h
      unfold pyIsDigit at h
      simp [List.all_cons, Char.isDigit] at h
  | obj o =>
    exfalso
    cases o with
    | nil => exact absurd h (by decide)
    | cons k v2 t =>
      have hps : pyStr (.obj (.cons k v2 t)) =
          lbraceC :: ((sqChar :: k ++ [sqChar, ':', ' '] ++ pyRepr v2) ++ pyReprObj t
            ++ [rbraceC]) := by
        simp [pyStr]
      rw [hps] at h
      unfold pyIsDigit at h
      rw [Bool.and_eq_true, List.all_cons, Bool.and_eq_true] at h
      have hlb : lbraceC.isDigit = false := by decide
      rw [hlb] at h
      exact absurd h.2.1 (by simp)

theorem rcRes_isSome (v : JVal) : (rcRes v).isSome = true := by
  unfold rcRes
  by_cases hc : (pyTruthy v && pyIsDigit (pyStr v)) = true
  · rw [if_pos hc]
    rw [Bool.and_eq_true] at hc
    obtain ⟨n, hn⟩ := Option.isSome_iff_exists.mp (pyIntOfVal_digits v hc.2)
    rw [hn]
    rfl
  · rw [if_neg hc]
    rfl

theorem dlRes_isSome (v : JVal) : (dlRes v).isSome = true := by
  unfold dlRes
  by_cases ht : pyTruthy v = true
  · rw [if_pos ht]
    by_cases hd2 : pyIsDigit (pyStr v) = true
    · obtain ⟨n, hn⟩ := Option.isSome_iff_exists.mp (pyIntOfVal_digits v hd2)
      simp [hd2, hn]
    · have hd3 : pyIsDigit (pyStr v) = false := by simpa using hd2
      simp [hd3]
  · have ht2 : pyTruthy v = false := by simpa using ht
    simp [ht2]

theorem parse_ext_core (item : List JVal) (s0 s2 : List Char)
    (h0 : item.getD 0 .null = .str s0) (h0n : s0 ≠ [])
    (h2 : item.getD 2 .null = .str s2) (h2n : s2 ≠ [])
    (hlen : 19 ≤ item.length)
    (hman : (manifestOf (item.getD 18 .null)).isSome = true)
    (hdate : (dateSlotRes (item.getD 17 .null)).isSome = true) :
    (ratingRes (item.getD 3 .null) = none → parse_extension_data item = none) ∧
    (∀ r0, ratingRes (item.getD 3 .null) = some r0 →
      ∃ ext, parse_extension_data item = some ext ∧ ext.rating = r0 ∧
        ext.id = s0 ∧ ext.name = s2) := by
  obtain ⟨m, hm⟩ := Option.isSome_iff_exists.mp hman
  obtain ⟨d, hd⟩ := Option.isSome_iff_exists.mp hdate
  obtain ⟨rc, hrc⟩ := Option.isSome_iff_exists.mp (rcRes_isSome (item.getD 4 .null))
  obtain ⟨dl, hdl⟩ := Option.isSome_iff_exists.mp (dlRes_isSome (item.getD 14 .null))
  have hne : item.isEmpty = false := by
    cases item with
    | nil => simp at hlen
    | cons a t => rfl
  have hlt : ¬ item.length < 19 := Nat.not_lt.mpr hlen
  have e0 : s0.isEmpty = false := by
    cases s0 with
    | nil => exact absurd rfl h0n
    | cons a t => rfl
  have e2 : s2.isEmpty = false := by
    cases s2 with
    | nil => exact absurd rfl h2n
    | cons a t => rfl
  have hid : coerceReq (item.getD 0 .null) = s0 := by
    rw [h0]
    unfold coerceReq
    have ht : pyTruthy (.str s0) = true := by unfold pyTruthy; simp [e0]
    rw [ht]
    simp
    rfl
  have hnm : coerceReq (item.getD 2 .null) = s2 := by
    rw [h2]
    unfold coerceReq
    have ht : pyTruthy (.str s2) = true := by unfold pyTruthy; simp [e2]
    rw [ht]
    simp
    rfl
  constructor
  · intro hrat
    unfold parse_extension_data
    simp only [hne, Bool.false_eq_true, if_false, hlt, hm, hd, hrat]
  · intro r0 hrat
    unfold parse_extension_data
    simp only [hne, Bool.false_eq_true, if_false, hlt, hm, hd, hrat, hrc, hdl, hid, hnm, e0,
      e2, Bool.or_self, if_false]
    exact ⟨_, rfl, rfl, rfl, rfl⟩

set_option maxHeartbeats 1000000 in
theorem parse_ext_some_valid (item : List JVal) (ext : ChromeExtension)
    (h : parse_extension_data item = some ext) :
    ext.id = coerceReq (item.getD 0 .null) ∧ ext.name = coerceReq (item.getD 2 .null) ∧
    (ext.id.isEmpty || ext.name.isEmpty) = false := by
  unfold parse_extension_data at h
  dsimp only at h
  repeat' split at h
  all_goals first
    | exact Option.noConfusion h
    | (obtain rfl := (Option.some.inj h).symm
       refine ⟨rfl, rfl, ?_⟩
       apply Bool.eq_false_iff.mpr
       assumption)

/-! ## C9 -/

/-- C9: every extension `parse_extension_data` ever returns has a non-empty
id and a non-empty name (the final validation guarantees it), and a row
whose id or name coerces to the empty string is dropped: the function
returns `None` rather than raising. -/
theorem C9_id_name_invariant :
    (∀ item ext, parse_extension_data item = some ext → ext.id ≠ [] ∧ ext.name ≠ []) ∧
    (∀ item, coerceReq (item.getD 0 .null) = [] ∨ coerceReq (item.getD 2 .null) = [] →
      parse_extension_data item = none) := by
  constructor
  · intro item ext h
    obtain ⟨hid, hnm, hcond⟩ := parse_ext_some_valid item ext h
    rw [Bool.or_eq_false_iff] at hcond
    constructor
    · intro he
      rw [he] at hcond
      simp at hcond
    · intro he
      rw [he] at hcond
      simp at hcond
  · intro item hor
    cases h : parse_extension_data item with
    | none => rfl
    | some ext =>
      obtain ⟨hid, hnm, hcond⟩ := parse_ext_some_valid item ext h
      rw [Bool.or_eq_false_iff] at hcond
      rcases hor with he | he
      · rw [hid, he] at hcond
        simp at hcond
      · rw [hnm, he] at hcond
        simp at hcond

/-- Witness for C9: a row whose id slot coerces to the empty string is
dropped. -/
theorem C9_witness :
    parse_extension_data ((rowBase .null).set 0 (.str [])) = none :=
  C9_id_name_invariant.2 ((rowBase .null).set 0 (.str [])) (Or.inl (by rfl))

/-! ## C2 -/

/-- Counterexample to C2 as stated: a three-element row whose positions 0
and 2 are non-empty strings is *dropped*, not decoded with absent fields —
`parse_extension_data` indexes position 18 (and 17, 3, 4, 11, 14, 6, 1, 7,
8, 9) without a bounds check, so the `IndexError` of any row shorter than
19 entries sends it to the catch-all handler. -/
theorem C2_counterexample :
    parse_extension_data [.str (S "id1"), .null, .str (S "name1")] = none := by rfl

/-- C2 (amended): decode returns an Extension — and never raises — for a
row whose positions 0 and 2 are non-empty strings, *provided* the row has
at least 19 entries and none of the three dedicated row-dropping paths
fires: the manifest slot must not hold valid non-object JSON, the
timestamp slot must not overflow the platform range, and the rating slot
must not pass the digit guard while failing float parsing.  (Rows violating
any proviso yield `none`, not an exception.) -/
theorem C2_defensive_decode (item : List JVal) (s0 s2 : List Char)
    (h0 : item.getD 0 .null = .str s0) (h0n : s0 ≠ [])
    (h2 : item.getD 2 .null = .str s2) (h2n : s2 ≠ [])
    (hlen : 19 ≤ item.length)
    (hman : (manifestOf (item.getD 18 .null)).isSome = true)
    (hdate : (dateSlotRes (item.getD 17 .null)).isSome = true)
    (hrate : (ratingRes (item.getD 3 .null)).isSome = true) :
    ∃ ext, parse_extension_data item = some ext ∧ ext.id = s0 ∧ ext.name = s2 := by
  obtain ⟨r0, hr0⟩ := Option.isSome_iff_exists.mp hrate
  obtain ⟨ext, hext, _, hi, hn⟩ :=
    (parse_ext_core item s0 s2 h0 h0n h2 h2n hlen hman hdate).2 r0 hr0
  exact ⟨ext, hext, hi, hn⟩

/-- Witness for C2 (amended) on the 19-entry fixture row. -/
theorem C2_witness :
    ∃ ext, parse_extension_data (rowBase .null) = some ext ∧
      ext.id = S "id1" ∧ ext.name = S "name1" :=
  C2_defensive_decode (rowBase .null) (S "id1") (S "name1") (by rfl) (by decide) (by rfl)
    (by decide) (by decide) (by rfl) (by rfl) (by rfl)

/-! ## C8 -/

/-- Counterexample to C8 as stated: `"1.2.3"` does not match the claimed
numeric pattern (it has two decimal points), so the claim requires the row
to decode with an absent rating; instead the guard
`str(x).replace('.', '').replace('-', '').isdigit()` passes, `float("1.2.3")`
raises, and the whole row is dropped. -/
theorem C8_counterexample :
    parse_extension_data (rowBase (.str (S "1.2.3"))) = none := by rfl

/-- C8 (amended): the rating is taken from position 3 exactly when the slot
is truthy, its string form stripped of dots and minus signs is purely
digits, *and* `float()` parses it — `"4.5"` yields 4.5 (scaled decimal
`(450, 2)` after rounding to two places).  A slot failing the guard (such
as `"n/a"`) leaves the rating absent with the row still decoded; but a slot
passing the guard that `float()` cannot parse drops the whole row. -/
theorem C8_rating_admission (item : List JVal) (s0 s2 : List Char)
    (h0 : item.getD 0 .null = .str s0) (h0n : s0 ≠ [])
    (h2 : item.getD 2 .null = .str s2) (h2n : s2 ≠ [])
    (hlen : 19 ≤ item.length)
    (hman : (manifestOf (item.getD 18 .null)).isSome = true)
    (hdate : (dateSlotRes (item.getD 17 .null)).isSome = true) :
    (∀ q e, pyTruthy (item.getD 3 .null) = true →
      ratingGuard (pyStr (item.getD 3 .null)) = true →
      pyFloatVal (item.getD 3 .null) = some (q, e) →
      ∃ ext, parse_extension_data item = some ext ∧ ext.rating = some (round2f q e)) ∧
    ((pyTruthy (item.getD 3 .null) && ratingGuard (pyStr (item.getD 3 .null))) = false →
      ∃ ext, parse_extension_data item = some ext ∧ ext.rating = none) ∧
    (pyTruthy (item.getD 3 .null) = true →
      ratingGuard (pyStr (item.getD 3 .null)) = true →
      pyFloatVal (item.getD 3 .null) = none →
      parse_extension_data item = none) := by
  obtain ⟨hnone, hsome⟩ := parse_ext_core item s0 s2 h0 h0n h2 h2n hlen hman hdate
  refine ⟨?_, ?_, ?_⟩
  · intro q e ht hg hf
    have hr : ratingRes (item.getD 3 .null) = some (some (round2f q e)) := by
      unfold ratingRes
      rw [ht, hg, hf]
      rfl
    obtain ⟨ext, hext, hrat, _, _⟩ := hsome _ hr
    exact ⟨ext, hext, hrat⟩
  · intro hng
    have hr : ratingRes (item.getD 3 .null) = some none := by
      unfold ratingRes
      rw [hng]
      rfl
    obtain ⟨ext, hext, hrat, _, _⟩ := hsome _ hr
    exact ⟨ext, hext, hrat⟩
  · intro ht hg hf
    apply hnone
    unfold ratingRes
    rw [ht, hg, hf]
    rfl

/-- Witness for C8 (amended): rating text `"4.5"` yields rating `4.5`
(scaled decimal `(450, 2)`), and rating text `"n/a"` yields an absent
rating on a still-decoded row. -/
theorem C8_witness :
    (∃ ext, parse_extension_data (rowBase (.str (S "4.5"))) = some ext ∧
      ext.rating = some (round2f 45 1)) ∧
    (∃ ext, parse_extension_data (rowBase (.str (S "n/a"))) = some ext ∧
      ext.rating = none) := by
  constructor
  · exact (C8_rating_admission (rowBase (.str (S "4.5"))) (S "id1") (S "name1") (by rfl)
      (by decide) (by rfl) (by decide) (by decide) (by rfl) (by rfl)).1 45 1 (by rfl)
      (by rfl) (by rfl)
  · exact (C8_rating_admission (rowBase (.str (S "n/a"))) (S "id1") (S "name1") (by rfl)
      (by decide) (by rfl) (by decide) (by decide) (by rfl) (by rfl)).2.1 (by rfl)

/-! ## Parser shape lemmas (used for the extraction claims) -/

theorem jarrSnoc_ne_nil (l : JArr) (v : JVal) : jarrSnoc l v ≠ .nil := by
  cases l <;> simp [jarrSnoc]

theorem headJ_snoc_of_ne_nil (l : JArr) (v : JVal) (h : l ≠ .nil) :
    headJ (jarrSnoc l v) = headJ l := by
  cases l with
  | nil => exact absurd rfl h
  | cons w t => rfl

theorem parseF_arrTail_shape :
    ∀ fuel acc cs v r, parseF (fuel + 1) (.arrTail acc) cs = some (v, r) →
      ∃ v1 r1 l, parseF fuel .val cs = some (v1, r1) ∧ v = .arr l ∧
        headJ l = headJ (jarrSnoc acc v1) := by
  intro fuel
  induction fuel with
  | zero =>
    intro acc cs v r h
    simp [parseF] at h
  | succ f ih =>
    intro acc cs v r h
    unfold parseF at h
    cases hval : parseF (f + 1) .val cs with
    | none =>
      rw [hval] at h
      exact Option.noConfusion h
    | some p =>
      obtain ⟨v1, r1⟩ := p
      rw [hval] at h
      dsimp only at h
      cases hws : skipWs r1 with
      | nil =>
        rw [hws] at h
        exact Option.noConfusion h
      | cons c2 t2 =>
        rw [hws] at h
        by_cases hc : c2 = ','
        · subst hc
          obtain ⟨v2, r2, l2, _, hv2, hh2⟩ := ih (jarrSnoc acc v1) t2 v r h
          refine ⟨v1, r1, l2, rfl, hv2, ?_⟩
          rw [hh2, headJ_snoc_of_ne_nil _ _ (jarrSnoc_ne_nil acc v1)]
        · by_cases hb : c2 = ']'
          · subst hb
            have hpair := Prod.ext_iff.mp (Option.some.inj h)
            exact ⟨v1, r1, jarrSnoc acc v1, rfl, hpair.1.symm, rfl⟩
          · have hnone : (match c2 :: t2 with
                | ',' :: r2 => parseF (f + 1) (.arrTail (jarrSnoc acc v1)) r2
                | ']' :: r2 => some (JVal.arr (jarrSnoc acc v1), r2)
                | _ => none) = none := by
              split
              next heq => exact absurd (List.head_eq_of_cons_eq heq) hc
              next heq => exact absurd (List.head_eq_of_cons_eq heq) hb
              next => rfl
            rw [hnone] at h
            exact Option.noConfusion h

theorem skipWs_not_ws (c : Char) (r : List Char)
    (h : (c = ' ' || c = '\t' || c = '\n' || c = '\r') = false) : skipWs (c :: r) = c :: r := by
  simp only [skipWs, h, Bool.false_eq_true, if_false]

theorem skipWs_idem (s : List Char) : skipWs (skipWs s) = skipWs s := by
  induction s with
  | nil => rfl
  | cons c r ih =>
    by_cases hc : (c = ' ' || c = '\t' || c = '\n' || c = '\r') = true
    · simp only [skipWs, hc, if_true]
      exact ih
    · have hc2 : (c = ' ' || c = '\t' || c = '\n' || c = '\r') = false := by
        simpa using hc
      rw [skipWs_not_ws c r hc2, skipWs_not_ws c r hc2]

theorem pv_skipws (f : Nat) (cs : List Char) :
    parseF (f + 1) .val cs = parseF (f + 1) .val (skipWs cs) := by
  conv_lhs => rw [parseF]
  conv_rhs => rw [parseF]
  rw [skipWs_idem]

theorem pv_lbracket (f : Nat) (r : List Char) :
    parseF (f + 1) .val ('[' :: r) = parseF f .arrStart r := rfl

theorem pa_of_rbracket (f : Nat) (cs2 r : List Char) (h : skipWs cs2 = ']' :: r) :
    parseF (f + 1) .arrStart cs2 = some (.arr .nil, r) := by
  rw [parseF, h]
  rfl

theorem pa_of_other (f : Nat) (cs2 : List Char) (h : ∀ r, skipWs cs2 ≠ ']' :: r) :
    parseF (f + 1) .arrStart cs2 = parseF f (.arrTail .nil) cs2 := by
  rw [parseF]
  cases hws : skipWs cs2 with
  | nil => rfl
  | cons c t =>
    split
    next heq => exact absurd (hws.trans heq) (h _)
    next => rfl

theorem parseF_val_open :
    ∀ fuel cs cs2 v r, parseF fuel .val cs = some (v, r) → skipWs cs = '[' :: cs2 →
      ∃ l, v = .arr l ∧
        (∀ c2 t2, skipWs cs2 = c2 :: t2 → c2 ≠ ']' →
          ∃ v1 r1 f1, parseF f1 .val cs2 = some (v1, r1) ∧ ∃ t3, l = .cons v1 t3) := by
  intro fuel cs cs2 v r h hsw
  cases fuel with
  | zero => simp [parseF] at h
  | succ f =>
    rw [pv_skipws f cs, hsw, pv_lbracket f cs2] at h
    cases f with
    | zero => simp [parseF] at h
    | succ f2 =>
      cases hws2 : skipWs cs2 with
      | nil =>
        rw [pa_of_other f2 cs2 (by rw [hws2]; intro r2 hcon; exact absurd hcon (by simp))] at h
        cases f2 with
        | zero => simp [parseF] at h
        | succ f3 =>
          obtain ⟨v1, r1, l, hv1, hvl, _⟩ := parseF_arrTail_shape f3 .nil cs2 v r h
          refine ⟨l, hvl, fun c2 t2 heq _ => ?_⟩
          exact absurd heq (by simp)
      | cons c2 t2 =>
        by_cases hb : c2 = ']'
        · subst hb
          rw [pa_of_rbracket f2 cs2 t2 hws2] at h
          obtain ⟨hv, _⟩ := Prod.ext_iff.mp (Option.some.inj h)
          refine ⟨.nil, hv.symm, fun c3 t3 heq hne => ?_⟩
          exact absurd (List.head_eq_of_cons_eq heq).symm hne
        · rw [pa_of_other f2 cs2
            (fun r2 hcon => hb (List.head_eq_of_cons_eq (hws2.symm.trans hcon)))] at h
          cases f2 with
          | zero => simp [parseF] at h
          | succ f3 =>
            obtain ⟨v1, r1, l, hv1, hvl, hhead⟩ := parseF_arrTail_shape f3 .nil cs2 v r h
            refine ⟨l, hvl, fun c3 t3 _ _ => ?_⟩
            refine ⟨v1, r1, f3, hv1, ?_⟩
            cases l with
            | nil => simp [headJ, jarrSnoc] at hhead
            | cons w t4 =>
              have hw : w = v1 := by
                simp [headJ, jarrSnoc] at hhead
                exact hhead
              exact ⟨t4, by rw [hw]⟩

theorem loads_triple_open (s : List Char) (v : JVal) (rest3 : List Char)
    (hload : loads s = some v) (hs : s = '[' :: '[' :: '[' :: rest3) :
    ∃ a ta b tb l3, v = .arr (.cons a ta) ∧ a = .arr (.cons b tb) ∧ b = .arr l3 := by
  subst hs
  unfold loads at hload
  cases hp : parseF (4 * ('[' :: '[' :: '[' :: rest3).length + 8) .val
      ('[' :: '[' :: '[' :: rest3) with
  | none => rw [hp] at hload; exact Option.noConfusion hload
  | some p =>
    obtain ⟨v0, r0⟩ := p
    rw [hp] at hload
    dsimp only at hload
    have hv : v0 = v := by
      by_cases hr : (skipWs r0).isEmpty = true
      · rw [if_pos hr] at hload; exact Option.some.inj hload
      · rw [if_neg hr] at hload; exact Option.noConfusion hload
    subst hv
    have hsw1 : skipWs ('[' :: '[' :: '[' :: rest3) = '[' :: ('[' :: '[' :: rest3) :=
      skipWs_not_ws _ _ (by decide)
    obtain ⟨l1, hv1, hnext1⟩ := parseF_val_open _ _ _ _ _ hp hsw1
    have hsw2 : skipWs ('[' :: '[' :: rest3) = '[' :: ('[' :: rest3) :=
      skipWs_not_ws _ _ (by decide)
    obtain ⟨va, ra, fa, hpa, ta, hla⟩ := hnext1 '[' ('[' :: rest3) hsw2 (by decide)
    obtain ⟨l2, hv2, hnext2⟩ := parseF_val_open _ _ _ _ _ hpa hsw2
    have hsw3 : skipWs ('[' :: rest3) = '[' :: rest3 := skipWs_not_ws _ _ (by decide)
    obtain ⟨vb, rb, fb, hpb, tb0, hlb⟩ := hnext2 '[' rest3 hsw3 (by decide)
    obtain ⟨l3, hv3, _⟩ := parseF_val_open _ _ _ _ _ hpb hsw3
    exact ⟨va, ta, vb, tb0, l3, by rw [hv1, hla], by rw [hv2, hlb], hv3⟩

theorem replBB_cons_ne (c : Char) (s : List Char) (h : c ≠ '\\') :
    replBB (c :: s) = c :: replBB s := by
  rw [replBB.eq_def]
  split
  next heq => exact absurd (List.head_eq_of_cons_eq heq) h
  next c2 rest heq =>
    obtain ⟨h1, h2⟩ := List.cons.injEq .. ▸ heq
    rw [h1, h2]
  next heq => exact absurd heq (by simp)

theorem replBQ_cons_ne (c : Char) (s : List Char) (h : c ≠ '\\') :
    replBQ (c :: s) = c :: replBQ s := by
  rw [replBQ.eq_def]
  split
  next heq => exact absurd (List.head_eq_of_cons_eq heq) h
  next c2 rest heq =>
    obtain ⟨h1, h2⟩ := List.cons.injEq .. ▸ heq
    rw [h1, h2]
  next heq => exact absurd heq (by simp)

theorem replNL_cons_ne (c : Char) (s : List Char) (h : c ≠ '\n') :
    replNL (c :: s) = c :: replNL s := by
  unfold replNL
  rw [List.filter_cons]
  simp [h]

theorem replBB_cons_bs_ne (d : Char) (rest : List Char) (h : d ≠ '\\') :
    replBB ('\\' :: d :: rest) = '\\' :: replBB (d :: rest) := by
  rw [replBB.eq_def]
  split
  next heq =>
    obtain ⟨-, h2⟩ := List.cons.injEq .. ▸ heq
    exact absurd (List.head_eq_of_cons_eq h2) h
  next c2 r2 heq =>
    obtain ⟨h1, h2⟩ := List.cons.injEq .. ▸ heq
    rw [h1, h2]
  next heq => exact absurd heq (by simp)

theorem replBQ_cons_bs_ne (d : Char) (rest : List Char) (h : d ≠ '"') :
    replBQ ('\\' :: d :: rest) = '\\' :: replBQ (d :: rest) := by
  rw [replBQ.eq_def]
  split
  next heq =>
    obtain ⟨-, h2⟩ := List.cons.injEq .. ▸ heq
    exact absurd (List.head_eq_of_cons_eq h2) h
  next c2 r2 heq =>
    obtain ⟨h1, h2⟩ := List.cons.injEq .. ▸ heq
    rw [h1, h2]
  next heq => exact absurd heq (by simp)

theorem count_replBB (s : List Char) : (replBB s).count ']' = s.count ']' := by
  have key : ∀ n s, s.length ≤ n → (replBB s).count ']' = s.count ']' := by
    intro n
    induction n with
    | zero =>
      intro s hs
      rw [List.length_eq_zero.mp (Nat.le_zero.mp hs)]
      rfl
    | succ m ih =>
      intro s hs
      cases s with
      | nil => rfl
      | cons c rest =>
        by_cases hc : c = '\\'
        · subst hc
          cases rest with
          | nil => rfl
          | cons d rest2 =>
            by_cases hd : d = '\\'
            · subst hd
              show (('\\' : Char) :: replBB rest2).count ']' = _
              rw [List.count_cons, List.count_cons, List.count_cons,
                ih rest2 (by simp at hs; omega)]
              simp
            · rw [replBB_cons_bs_ne d rest2 hd, List.count_cons, List.count_cons,
                ih (d :: rest2) (by simp at hs ⊢; omega)]
        · rw [replBB_cons_ne c rest hc, List.count_cons, List.count_cons,
            ih rest (by simp at hs; omega)]
  exact key s.length s (Nat.le_refl _)

theorem count_replBQ (s : List Char) : (replBQ s).count ']' = s.count ']' := by
  have key : ∀ n s, s.length ≤ n → (replBQ s).count ']' = s.count ']' := by
    intro n
    induction n with
    | zero =>
      intro s hs
      rw [List.length_eq_zero.mp (Nat.le_zero.mp hs)]
      rfl
    | succ m ih =>
      intro s hs
      cases s with
      | nil => rfl
      | cons c rest =>
        by_cases hc : c = '\\'
        · subst hc
          cases rest with
          | nil => rfl
          | cons d rest2 =>
            by_cases hd : d = '"'
            · subst hd
              show (('"' : Char) :: replBQ rest2).count ']' = _
              rw [List.count_cons, List.count_cons, List.count_cons,
                ih rest2 (by simp at hs; omega)]
              simp
            · rw [replBQ_cons_bs_ne d rest2 hd, List.count_cons, List.count_cons,
                ih (d :: rest2) (by simp at hs ⊢; omega)]
        · rw [replBQ_cons_ne c rest hc, List.count_cons, List.count_cons,
            ih rest (by simp at hs; omega)]
  exact key s.length s (Nat.le_refl _)

theorem count_replNL (s : List Char) : (replNL s).count ']' = s.count ']' := by
  unfold replNL
  induction s with
  | nil => rfl
  | cons c rest ih =>
    rw [List.filter_cons]
    by_cases hc : c = '\n'
    · subst hc
      rw [if_neg (by simp), ih, List.count_cons]
      simp
    · rw [if_pos (by simp [hc]), List.count_cons, List.count_cons, ih]

theorem split_head_cons (sep : List Char) (c : Char) (s : List Char)
    (hsw : startsWithL sep (c :: s) = false) :
    (splitOnL sep (c :: s)).headD [] = c :: (splitOnL sep s).headD [] := by
  unfold splitOnL
  simp only [List.length_cons]
  rw [splitOnAux.eq_def]
  simp only [hsw, Bool.false_and, Bool.false_eq_true, if_false]
  cases h2 : splitOnAux sep (s.length + 1) s with
  | nil => exact absurd h2 (splitOnAux_ne_nil sep _ s)
  | cons h t => simp

theorem getD_zero_headD (l : List (List Char)) : l.getD 0 [] = l.headD [] := by
  cases l <;> rfl

theorem split6_head_sep5 (Y : List Char) :
    (splitOnL sep6 (sep5 ++ Y)).headD [] = sep5 ++ (splitOnL sep6 Y).headD [] := by
  show (splitOnL sep6 ('[' :: '[' :: '[' :: '[' :: '[' :: Y)).headD [] = _
  rw [split_head_cons sep6 '[' _ rfl, split_head_cons sep6 '[' _ rfl,
    split_head_cons sep6 '[' _ rfl, split_head_cons sep6 '[' _ rfl,
    split_head_cons sep6 '[' _ rfl]
  rfl

theorem replBB_sep5 (Z : List Char) : replBB (sep5 ++ Z) = sep5 ++ replBB Z := by
  show replBB ('[' :: '[' :: '[' :: '[' :: '[' :: Z) = _
  rw [replBB_cons_ne _ _ (by decide), replBB_cons_ne _ _ (by decide),
    replBB_cons_ne _ _ (by decide), replBB_cons_ne _ _ (by decide),
    replBB_cons_ne _ _ (by decide)]
  rfl

theorem replBQ_sep5 (Z : List Char) : replBQ (sep5 ++ Z) = sep5 ++ replBQ Z := by
  show replBQ ('[' :: '[' :: '[' :: '[' :: '[' :: Z) = _
  rw [replBQ_cons_ne _ _ (by decide), replBQ_cons_ne _ _ (by decide),
    replBQ_cons_ne _ _ (by decide), replBQ_cons_ne _ _ (by decide),
    replBQ_cons_ne _ _ (by decide)]
  rfl

theorem replNL_sep5 (Z : List Char) : replNL (sep5 ++ Z) = sep5 ++ replNL Z := by
  show replNL ('[' :: '[' :: '[' :: '[' :: '[' :: Z) = _
  rw [replNL_cons_ne _ _ (by decide), replNL_cons_ne _ _ (by decide),
    replNL_cons_ne _ _ (by decide), replNL_cons_ne _ _ (by decide),
    replNL_cons_ne _ _ (by decide)]
  rfl

theorem cleanupResp_shape (t : List Char) :
    ∃ rest3, cleanupResp t = '[' :: '[' :: '[' :: rest3 := by
  unfold cleanupResp
  dsimp only
  set Y := (splitOnL sep5 t).getD 1 [] with hY
  rw [getD_zero_headD, split6_head_sep5]
  set H := (splitOnL sep6 Y).headD [] with hH
  have hassoc : sep5 ++ H ++ sep6 = sep5 ++ (H ++ sep6) := by
    rw [List.append_assoc]
  rw [hassoc, replBB_sep5, replBQ_sep5, replNL_sep5]
  set W2 := replNL (replBQ (replBB (H ++ sep6))) with hW2
  have hcnt : W2.count ']' = (H ++ sep6).count ']' := by
    rw [hW2, count_replNL, count_replBQ, count_replBB]
  have hlen : 2 ≤ W2.length := by
    have h6 : 6 ≤ (H ++ sep6).count ']' := by
      rw [List.count_append]
      have : sep6.count ']' = 6 := by decide
      omega
    have hc2 : W2.count ']' ≤ W2.length := List.count_le_length _ _
    omega
  unfold pyCut2
  rw [List.length_append, List.take_append_eq_append_take]
  have hs5 : (sep5 : List Char).length = 5 := by decide
  rw [List.take_of_length_le (by omega)]
  refine ⟨'[' :: '[' :: W2.take (sep5.length + W2.length - 2 - sep5.length), ?_⟩
  rfl

/-! ## C6 -/

/-- Counterexample to C6 as stated: `"[[[[[1]"` contains no six-close-
bracket sentinel at all, yet extraction succeeds — the code appends the
sentinel unconditionally instead of failing when it cannot be located. -/
theorem C6_counterexample :
    occursIn sep6 (S "[[[[[1]") = false ∧
    fix_json_response (S "[[[[[1]")
      = .ok [.arr (.cons (.arr (.cons (.int 1) .nil)) .nil)] := ⟨by rfl, by rfl⟩

/-- C6 (amended): extraction fails exactly on a missing five-open-bracket
sentinel or on a cleaned-up text that does not parse as JSON.  The absence
of the six-close-bracket sentinel is *not* itself checked: the sentinel is
appended unconditionally, and whenever the cleaned-up text parses, the
`[0][0]` indexing succeeds (the cleaned text always starts with open
brackets, forcing the parsed value's nesting) and a row list is
returned. -/
theorem C6_extraction_failure_modes :
    (∀ t, occursIn sep5 t = false → fix_json_response t = .error ()) ∧
    (∀ t, occursIn sep5 t = true → loads (cleanupResp t) = none →
      fix_json_response t = .error ()) ∧
    (∀ t v, occursIn sep5 t = true → loads (cleanupResp t) = some v →
      ∃ rows, fix_json_response t = .ok rows) := by
  refine ⟨?_, ?_, ?_⟩
  · intro t h
    unfold fix_json_response
    rw [h]
    rfl
  · intro t hocc hl
    unfold fix_json_response
    rw [hocc, hl]
    rfl
  · intro t v hocc hl
    obtain ⟨rest3, hshape⟩ := cleanupResp_shape t
    obtain ⟨a, ta, b, tb, l3, hv, ha, hb⟩ := loads_triple_open _ v rest3 hl hshape
    unfold fix_json_response
    rw [hocc, hl, hv, ha, hb]
    exact ⟨jarrToList l3, rfl⟩

/-- Witness for C6 (amended): a sentinel-free text fails; a well-formed
response extracts a row list. -/
theorem C6_witness :
    fix_json_response (S "no sentinel here") = .error () ∧
    ∃ rows, fix_json_response (S "[[[[[2]") = .ok rows := by
  constructor
  · exact C6_extraction_failure_modes.1 (S "no sentinel here") (by rfl)
  · exact C6_extraction_failure_modes.2.2 (S "[[[[[2]")
      (.arr (.cons (.arr (.cons (.arr (.cons (.arr (.cons (.arr (.cons (.int 2) .nil))
        .nil)) .nil)) .nil)) .nil)) (by rfl) (by rfl)

/-! ## Round-trip lemmas: the parser inverts `dumps` on the safe fragment -/

theorem digit_not_ws (c : Char) (hd : c.isDigit = true) :
    (c = ' ' || c = '\t' || c = '\n' || c = '\r') = false := by
  by_contra hne
  rw [Bool.not_eq_false] at hne
  simp only [Bool.or_eq_true, decide_eq_true_eq] at hne
  rcases hne with ((h1 | h1) | h1) | h1 <;> subst h1 <;> simp [Char.isDigit] at hd

theorem jsafe_char_facts (c : Char) (h : jsafeChar c = true) :
    c ≠ '\n' ∧ c ≠ '\t' ∧ c ≠ '\r' ∧ c ≠ '\x08' ∧ c ≠ '\x0c' ∧
      ¬ (c.toNat < 0x20) ∧ c.toNat < 0x80 := by
  unfold jsafeChar at h
  rw [Bool.and_eq_true] at h
  obtain ⟨h1, h2⟩ := h
  rw [decide_eq_true_eq] at h1 h2
  refine ⟨?_, ?_, ?_, ?_, ?_, by omega, h2⟩
  all_goals intro he; subst he; simp at h1

theorem encStrChar_plain (c : Char) (h : jsafeChar c = true) (hq : c ≠ '"')
    (hb : c ≠ '\\') : encStrChar c = [c] := by
  obtain ⟨hn, ht, hr, h8, hc, hlt, hlt2⟩ := jsafe_char_facts c h
  unfold encStrChar
  rw [if_neg hq, if_neg hb, if_neg hn, if_neg ht, if_neg hr, if_neg h8, if_neg hc,
    if_neg hlt, if_pos hlt2]

theorem parseJStr_cons_plain (f : Nat) (c : Char) (r : List Char) (hq : c ≠ '"')
    (hb : c ≠ '\\') (hc : ¬ (c.toNat < 0x20)) :
    parseJStr (f + 1) (c :: r) = (parseJStr f r).map (fun p => (c :: p.1, p.2)) := by
  rw [parseJStr]
  · rw [if_neg hc]
  · intro h
    exact hq h
  · intro e r2 h h2
    exact hb h

theorem parseJStr_rt (s : List Char) (hs : s.all jsafeChar = true) :
    ∀ rest f, (s.flatMap encStrChar).length < f →
      parseJStr f (s.flatMap encStrChar ++ '"' :: rest) = some (s, rest) := by
  induction s with
  | nil =>
    intro rest f hf
    cases f with
    | zero => omega
    | succ f2 => rfl
  | cons c s2 ih =>
    rw [List.all_cons, Bool.and_eq_true] at hs
    intro rest f hf
    rw [List.flatMap_cons] at hf ⊢
    cases f with
    | zero => simp at hf
    | succ f2 =>
      by_cases hq : c = '"'
      · subst hq
        have henc : encStrChar '"' = ['\\', '"'] := by decide
        rw [henc] at hf ⊢
        show parseJStr (f2 + 1) ('\\' :: '"' :: (s2.flatMap encStrChar ++ '"' :: rest))
            = some ('"' :: s2, rest)
        rw [show (f2 + 1 : Nat) = f2 + 1 from rfl, parseJStr]
        rw [ih hs.2 rest f2 (by
          simp only [List.length_append, List.length_cons, List.length_nil] at hf
          omega)]
        rfl
      · by_cases hb : c = '\\'
        · subst hb
          have henc : encStrChar '\\' = ['\\', '\\'] := by decide
          rw [henc] at hf ⊢
          show parseJStr (f2 + 1) ('\\' :: '\\' :: (s2.flatMap encStrChar ++ '"' :: rest))
              = some ('\\' :: s2, rest)
          rw [parseJStr]
          rw [ih hs.2 rest f2 (by
            simp only [List.length_append, List.length_cons, List.length_nil] at hf
            omega)]
          rfl
        · rw [encStrChar_plain c hs.1 hq hb] at hf ⊢
          have hc20 : ¬ (c.toNat < 0x20) := (jsafe_char_facts c hs.1).2.2.2.2.2.1
          rw [List.singleton_append, List.cons_append,
            parseJStr_cons_plain f2 c _ hq hb hc20]
          rw [ih hs.2 rest f2 (by
            simp only [List.length_append, List.length_cons, List.length_nil] at hf
            omega)]
          rfl

/-! ### Decimal rendering round-trips through the JSON number parser -/

theorem natStrAux_fuel (n : Nat) : ∀ f g, n < f → n < g → natStrAux f n = natStrAux g n := by
  induction n using Nat.strong_induction_on with
  | _ n ih =>
    intro f g hf hg
    obtain ⟨f2, rfl⟩ : ∃ f2, f = f2 + 1 := ⟨f - 1, by omega⟩
    obtain ⟨g2, rfl⟩ : ∃ g2, g = g2 + 1 := ⟨g - 1, by omega⟩
    rw [natStrAux, natStrAux]
    by_cases h10 : n < 10
    · rw [if_pos h10, if_pos h10]
    · rw [if_neg h10, if_neg h10, ih (n / 10) (by omega) f2 g2 (by omega) (by omega)]

theorem natStr_lt10 (n : Nat) (h : n < 10) : natStr n = [Char.ofNat (48 + n)] := by
  rw [natStr, natStrAux, if_pos h]

theorem natStr_ge10 (n : Nat) (h : 10 ≤ n) :
    natStr n = natStr (n / 10) ++ [Char.ofNat (48 + n % 10)] := by
  rw [natStr, natStrAux, if_neg (by omega)]
  rw [natStrAux_fuel (n / 10) n (n / 10 + 1) (by omega) (by omega)]
  rfl

theorem char_ofNat_digit_toNat (n : Nat) (h : n < 10) :
    (Char.ofNat (48 + n)).toNat = 48 + n := by
  interval_cases n <;> decide

theorem char_ofNat_digit_isDigit (n : Nat) (h : n < 10) :
    (Char.ofNat (48 + n)).isDigit = true := by
  interval_cases n <;> decide

theorem natStr_all_digits (n : Nat) : (natStr n).all Char.isDigit = true := by
  induction n using Nat.strong_induction_on with
  | _ n ih =>
    by_cases h10 : n < 10
    · rw [natStr_lt10 n h10]
      simp [char_ofNat_digit_isDigit n h10]
    · rw [natStr_ge10 n (by omega), List.all_append]
      rw [ih (n / 10) (by omega)]
      simp [char_ofNat_digit_isDigit (n % 10) (by omega)]

theorem natStr_ne_nil (n : Nat) : natStr n ≠ [] := by
  by_cases h10 : n < 10
  · rw [natStr_lt10 n h10]
    simp
  · rw [natStr_ge10 n (by omega)]
    simp

theorem natStr_head_ne_zero : ∀ n : Nat, 1 ≤ n → (natStr n).headD '1' ≠ '0' := by
  intro n
  induction n using Nat.strong_induction_on with
  | _ n ih =>
    intro h
    by_cases h10 : n < 10
    · rw [natStr_lt10 n h10]
      simp only [List.headD_cons]
      interval_cases n <;> decide
    · rw [natStr_ge10 n (by omega)]
      obtain ⟨c, t, hct⟩ := List.exists_cons_of_ne_nil (natStr_ne_nil (n / 10))
      rw [hct, List.cons_append, List.headD_cons]
      have hh := ih (n / 10) (by omega) (by omega)
      rw [hct, List.headD_cons] at hh
      exact hh

theorem dtn_nil (acc : Nat) : digitsToNat acc [] = acc := rfl

theorem dtn_cons (acc : Nat) (c : Char) (r : List Char) :
    digitsToNat acc (c :: r) = digitsToNat (acc * 10 + (c.toNat - 48)) r := rfl

theorem digitsToNat_append (acc : Nat) (xs ys : List Char) :
    digitsToNat acc (xs ++ ys) = digitsToNat (digitsToNat acc xs) ys := by
  induction xs generalizing acc with
  | nil => rfl
  | cons c t ih => rw [List.cons_append, dtn_cons, dtn_cons, ih]

theorem digitsToNat_natStr : ∀ n acc : Nat,
    digitsToNat acc (natStr n) = acc * 10 ^ (natStr n).length + n := by
  intro n
  induction n using Nat.strong_induction_on with
  | _ n ih =>
    intro acc
    by_cases h10 : n < 10
    · rw [natStr_lt10 n h10, dtn_cons, dtn_nil, char_ofNat_digit_toNat n h10]
      simp only [List.length_cons, List.length_nil, pow_one, Nat.zero_add]
      omega
    · rw [natStr_ge10 n (by omega), digitsToNat_append, ih (n / 10) (by omega)]
      rw [dtn_cons, dtn_nil, char_ofNat_digit_toNat (n % 10) (by omega)]
      rw [List.length_append, List.length_cons, List.length_nil]
      have hp : 10 ^ ((natStr (n / 10)).length + (0 + 1))
          = 10 ^ (natStr (n / 10)).length * 10 := by
        rw [Nat.zero_add, pow_succ]
      rw [hp, ← mul_assoc]
      have he : 48 + n % 10 - 48 = n % 10 := by omega
      rw [he]
      omega

theorem takeDigits_append (ds rest : List Char) (hds : ds.all Char.isDigit = true)
    (hrest : ∀ c r, rest = c :: r → c.isDigit = false) :
    takeDigits (ds ++ rest) = (ds, rest) := by
  induction ds with
  | nil =>
    cases rest with
    | nil => rfl
    | cons c r =>
      rw [List.nil_append, takeDigits, if_neg (by rw [hrest c r rfl]; simp)]
  | cons d t ih =>
    rw [List.all_cons, Bool.and_eq_true] at hds
    rw [List.cons_append, takeDigits, if_pos hds.1, ih hds.2]

theorem natStr_no_lz (n : Nat) :
    (decide ((natStr n).length > 1) && decide ((natStr n).headD '1' = '0')) = false := by
  by_cases h10 : n < 10
  · rw [natStr_lt10 n h10]
    simp
  · have hh : decide ((natStr n).headD '1' = '0') = false :=
      decide_eq_false (natStr_head_ne_zero n (by omega))
    rw [hh, Bool.and_false]

theorem numDelim_facts (rest : List Char) (h : numDelimB rest = true) :
    ∀ c r, rest = c :: r → c.isDigit = false ∧ c ≠ '.' ∧ c ≠ 'e' ∧ c ≠ 'E' := by
  intro c r he
  subst he
  unfold numDelimB at h
  simp only [Bool.and_eq_true, Bool.not_eq_eq_eq_not, Bool.not_true, decide_eq_true_eq] at h
  exact ⟨h.1.1.1, h.1.1.2, h.1.2, h.2⟩

theorem frPart_delim (ipart : Int) (r1 : List Char) (h : ∀ rr, r1 ≠ '.' :: rr) :
    frPart ipart r1 = some (ipart, 0, r1) := by
  unfold frPart
  split
  next rr => exact absurd rfl (h rr)
  next => rfl

theorem exPart_delim (r2 : List Char)
    (h : ∀ c rr, r2 = c :: rr → c ≠ 'e' ∧ c ≠ 'E') :
    exPart r2 = some (false, 0, r2) := by
  unfold exPart
  split
  next c rr =>
    rw [if_neg (by simp [(h c rr rfl).1, (h c rr rfl).2])]
  next => rfl

theorem parseJNum_core (m : Nat) (neg : Bool) (rest cs : List Char)
    (hrest : numDelimB rest = true)
    (hcs : jsonNeg cs = (neg, natStr m ++ rest)) :
    parseJNum cs = some (.int (if neg then -(m : Int) else (m : Int)), rest) := by
  have hfacts := numDelim_facts rest hrest
  have h1 : (natStr m).isEmpty = false := by
    cases hnm : natStr m with
    | nil => exact absurd hnm (natStr_ne_nil m)
    | cons a t => rfl
  have hdm : digitsToNat 0 (natStr m) = m := by
    rw [digitsToNat_natStr m 0]
    simp
  unfold parseJNum
  rw [hcs]
  dsimp only
  rw [takeDigits_append (natStr m) rest (natStr_all_digits m)
    (fun c r he => (hfacts c r he).1)]
  dsimp only
  rw [h1, natStr_no_lz m]
  simp only [Bool.false_eq_true, if_false]
  rw [hdm]
  rw [frPart_delim (m : Int) rest (fun rr he => absurd rfl (hfacts '.' rr he).2.1)]
  dsimp only
  rw [exPart_delim rest
    (fun c rr he => ⟨(hfacts c rr he).2.2.1, (hfacts c rr he).2.2.2⟩)]
  dsimp only
  simp

theorem natStr_head_not_minus (m : Nat) (c : Char) (t : List Char)
    (hct : natStr m = c :: t) : c ≠ '-' := by
  intro he
  have hall := natStr_all_digits m
  rw [hct, List.all_cons, Bool.and_eq_true] at hall
  rw [he] at hall
  exact absurd hall.1 (by decide)

theorem parseJNum_intStr (n : Int) (rest : List Char) (hrest : numDelimB rest = true) :
    parseJNum (intStr n ++ rest) = some (.int n, rest) := by
  by_cases hn : n < 0
  · have hcs : jsonNeg (intStr n ++ rest) = (true, natStr n.natAbs ++ rest) := by
      rw [intStr, if_pos hn]
      rfl
    rw [parseJNum_core n.natAbs true rest _ hrest hcs]
    have hv : (if true then -(n.natAbs : Int) else (n.natAbs : Int)) = n := by
      rw [if_pos rfl]
      omega
    rw [hv]
  · obtain ⟨c, t, hct⟩ := List.exists_cons_of_ne_nil (natStr_ne_nil n.natAbs)
    have hcs : jsonNeg (intStr n ++ rest) = (false, natStr n.natAbs ++ rest) := by
      rw [intStr, if_neg hn, hct, List.cons_append]
      exact jsonNeg_not _ (natStr_head_not_minus n.natAbs c t hct)
    rw [parseJNum_core n.natAbs false rest _ hrest hcs]
    have hv : (if false then -(n.natAbs : Int) else (n.natAbs : Int)) = n := by
      rw [if_neg (by simp)]
      omega
    rw [hv]

/-! ### Dispatch and matcher-evaluation lemmas for the parser -/

theorem pv_quote (f : Nat) (r : List Char) :
    parseF (f + 1) .val ('"' :: r)
      = (parseJStr (r.length + 1) r).map (fun p => (.str p.1, p.2)) := rfl

theorem pv_null (f : Nat) (r : List Char) :
    parseF (f + 1) .val ('n' :: 'u' :: 'l' :: 'l' :: r) = some (.null, r) := rfl

theorem pv_true (f : Nat) (r : List Char) :
    parseF (f + 1) .val ('t' :: 'r' :: 'u' :: 'e' :: r) = some (.bool true, r) := rfl

theorem pv_false (f : Nat) (r : List Char) :
    parseF (f + 1) .val ('f' :: 'a' :: 'l' :: 's' :: 'e' :: r) = some (.bool false, r) := rfl

theorem pv_minus (f : Nat) (r : List Char) :
    parseF (f + 1) .val ('-' :: r) = parseJNum ('-' :: r) := rfl

theorem pv_lbrace (f : Nat) (r : List Char) :
    parseF (f + 1) .val (lbraceC :: r) = parseF f .objStart r := rfl

theorem pv_digit (f : Nat) (c : Char) (r : List Char) (hd : c.isDigit = true) :
    parseF (f + 1) .val (c :: r) = parseJNum (c :: r) := by
  rw [parseF, skipWs_not_ws c r (digit_not_ws c hd)]
  split
  next heq => exact absurd hd (by rw [List.head_eq_of_cons_eq heq]; decide)
  next heq => exact absurd hd (by rw [List.head_eq_of_cons_eq heq]; decide)
  next heq => exact absurd hd (by rw [List.head_eq_of_cons_eq heq]; decide)
  next heq => exact absurd hd (by rw [List.head_eq_of_cons_eq heq]; decide)
  next heq => exact absurd hd (by rw [List.head_eq_of_cons_eq heq]; decide)
  next c2 r2 heq =>
    have h1 := List.head_eq_of_cons_eq heq
    have h2 := List.tail_eq_of_cons_eq heq
    subst h1
    rw [← h2]
    rw [if_neg (show c ≠ lbraceC from fun he => absurd hd (by rw [he]; decide)),
      if_pos (by rw [hd, Bool.or_true])]
  next heq => exact List.noConfusion heq

theorem pv_intStr (f : Nat) (n : Int) (rest : List Char) :
    parseF (f + 1) .val (intStr n ++ rest) = parseJNum (intStr n ++ rest) := by
  by_cases hn : n < 0
  · rw [intStr, if_pos hn, List.cons_append, pv_minus]
  · rw [intStr, if_neg hn]
    obtain ⟨c, t, hct⟩ := List.exists_cons_of_ne_nil (natStr_ne_nil n.natAbs)
    have hd : c.isDigit = true := by
      have hall := natStr_all_digits n.natAbs
      rw [hct, List.all_cons, Bool.and_eq_true] at hall
      exact hall.1
    rw [hct, List.cons_append, pv_digit f c _ hd]

theorem dumps_head (v : JVal) (hs : jsafeVal v = true) :
    ∃ c t, dumpsL v = c :: t ∧ (c = ' ' || c = '\t' || c = '\n' || c = '\r') = false ∧
      c ≠ ']' ∧ c ≠ rbraceC := by
  cases v with
  | null => refine ⟨'n', _, rfl, ?_, ?_, ?_⟩ <;> decide
  | bool b =>
    rcases b with _ | _
    · refine ⟨'f', _, rfl, ?_, ?_, ?_⟩ <;> decide
    · refine ⟨'t', _, rfl, ?_, ?_, ?_⟩ <;> decide
  | int n =>
    by_cases hn : n < 0
    · refine ⟨'-', natStr n.natAbs, ?_, by decide, by decide, by decide⟩
      rw [show dumpsL (.int n) = intStr n from rfl, intStr, if_pos hn]
    · obtain ⟨c, t, hct⟩ := List.exists_cons_of_ne_nil (natStr_ne_nil n.natAbs)
      have hd : c.isDigit = true := by
        have hall := natStr_all_digits n.natAbs
        rw [hct, List.all_cons, Bool.and_eq_true] at hall
        exact hall.1
      refine ⟨c, t, ?_, digit_not_ws c hd, ?_, ?_⟩
      · rw [show dumpsL (.int n) = intStr n from rfl, intStr, if_neg hn, hct]
      · exact fun he => absurd hd (by rw [he]; decide)
      · exact fun he => absurd hd (by rw [he]; decide)
  | flt m e => simp [jsafeVal] at hs
  | str s => exact ⟨'"', _, rfl, by decide, by decide, by decide⟩
  | arr l =>
    cases l with
    | nil => exact ⟨'[', _, rfl, by decide, by decide, by decide⟩
    | cons v2 t2 => exact ⟨'[', _, rfl, by decide, by decide, by decide⟩
  | obj o =>
    cases o with
    | nil => exact ⟨lbraceC, _, rfl, by decide, by decide, by decide⟩
    | cons k2 v2 o2 => exact ⟨lbraceC, _, rfl, by decide, by decide, by decide⟩

theorem skipWs_dumps (v : JVal) (hs : jsafeVal v = true) (X : List Char) :
    skipWs (dumpsL v ++ X) = dumpsL v ++ X := by
  obtain ⟨c, t, hct, hws, _, _⟩ := dumps_head v hs
  rw [hct, List.cons_append, skipWs_not_ws c _ hws]

theorem pat_unfold (f : Nat) (acc : JArr) (cs : List Char) :
    parseF (f + 1) (.arrTail acc) cs =
      match parseF f .val cs with
      | none => none
      | some (v, r) =>
        match skipWs r with
        | ',' :: r2 => parseF f (.arrTail (jarrSnoc acc v)) r2
        | ']' :: r2 => some (.arr (jarrSnoc acc v), r2)
        | _ => none := by
  rw [parseF]

theorem pot_unfold (f : Nat) (acc : JObj) (cs : List Char) :
    parseF (f + 1) (.objTail acc) cs =
      match skipWs cs with
      | '"' :: r =>
        match parseJStr (r.length + 1) r with
        | none => none
        | some (k, r1) =>
          match skipWs r1 with
          | ':' :: r2 =>
            match parseF f .val r2 with
            | none => none
            | some (v, r3) =>
              match skipWs r3 with
              | ',' :: r4 => parseF f (.objTail (jobjSnoc acc k v)) r4
              | c :: r4 => if c = rbraceC then some (.obj (jobjSnoc acc k v), r4) else none
              | [] => none
          | _ => none
      | _ => none := by
  rw [parseF]

theorem po_rbrace (f : Nat) (cs2 r : List Char) (h : skipWs cs2 = rbraceC :: r) :
    parseF (f + 1) .objStart cs2 = some (.obj .nil, r) := by
  rw [parseF, h]
  rfl

theorem po_other (f : Nat) (cs2 : List Char) (c : Char) (r : List Char)
    (h : skipWs cs2 = c :: r) (hc : c ≠ rbraceC) :
    parseF (f + 1) .objStart cs2 = parseF f (.objTail .nil) cs2 := by
  rw [parseF, h]
  show (if c = rbraceC then some (.obj .nil, r) else parseF f (.objTail .nil) cs2)
    = parseF f (.objTail .nil) cs2
  rw [if_neg hc]

theorem pv_space (f : Nat) (X : List Char) :
    parseF f .val (' ' :: X) = parseF f .val X := by
  cases f with
  | zero => rfl
  | succ g =>
    have hsw : skipWs (' ' :: X) = skipWs X := by simp [skipWs]
    rw [pv_skipws g (' ' :: X), pv_skipws g X, hsw]

theorem pat_space (f : Nat) (acc : JArr) (X : List Char) :
    parseF f (.arrTail acc) (' ' :: X) = parseF f (.arrTail acc) X := by
  cases f with
  | zero => rfl
  | succ g => rw [pat_unfold, pat_unfold, pv_space]

theorem pot_space (f : Nat) (acc : JObj) (X : List Char) :
    parseF f (.objTail acc) (' ' :: X) = parseF f (.objTail acc) X := by
  cases f with
  | zero => rfl
  | succ g =>
    have hsw : skipWs (' ' :: X) = skipWs X := by simp [skipWs]
    rw [pot_unfold, pot_unfold, hsw]

theorem jarrSnoc_eq_append (acc : JArr) (v : JVal) :
    jarrSnoc acc v = jarrAppend acc (.cons v .nil) := by
  cases acc with
  | nil => rfl
  | cons w t => rw [jarrSnoc, jarrAppend, jarrSnoc_eq_append t v]

theorem jarrAppend_snoc (acc : JArr) (v : JVal) (l : JArr) :
    jarrAppend (jarrSnoc acc v) l = jarrAppend acc (.cons v l) := by
  cases acc with
  | nil => rfl
  | cons w t => rw [jarrSnoc, jarrAppend, jarrAppend, jarrAppend_snoc t v l]

theorem jobjSnoc_eq_append (acc : JObj) (k : List Char) (v : JVal) :
    jobjSnoc acc k v = jobjAppend acc (.cons k v .nil) := by
  cases acc with
  | nil => rfl
  | cons k2 v2 t => rw [jobjSnoc, jobjAppend, jobjSnoc_eq_append t k v]

theorem jobjAppend_snoc (acc : JObj) (k : List Char) (v : JVal) (o : JObj) :
    jobjAppend (jobjSnoc acc k v) o = jobjAppend acc (.cons k v o) := by
  cases acc with
  | nil => rfl
  | cons k2 v2 t => rw [jobjSnoc, jobjAppend, jobjAppend, jobjAppend_snoc t k v o]

theorem numDelim_arrCont (t : JArr) (rest : List Char) :
    numDelimB (dumpsArr t ++ ']' :: rest) = true := by
  cases t with
  | nil => rfl
  | cons v2 t2 => rfl

theorem numDelim_objCont (o : JObj) (rest : List Char) :
    numDelimB (dumpsObj o ++ rbraceC :: rest) = true := by
  cases o with
  | nil => rfl
  | cons k2 v2 o2 => rfl

theorem pat_step_comma (f : Nat) (acc : JArr) (cs : List Char) (v : JVal)
    (r X2 : List Char) (hv : parseF f .val cs = some (v, r))
    (hr : skipWs r = ',' :: X2) :
    parseF (f + 1) (.arrTail acc) cs = parseF f (.arrTail (jarrSnoc acc v)) X2 := by
  rw [parseF, hv]
  show (match skipWs r with
      | ',' :: r2 => parseF f (.arrTail (jarrSnoc acc v)) r2
      | ']' :: r2 => some (.arr (jarrSnoc acc v), r2)
      | _ => none) = parseF f (.arrTail (jarrSnoc acc v)) X2
  rw [hr]
  rfl

theorem pat_step_close (f : Nat) (acc : JArr) (cs : List Char) (v : JVal)
    (r X2 : List Char) (hv : parseF f .val cs = some (v, r))
    (hr : skipWs r = ']' :: X2) :
    parseF (f + 1) (.arrTail acc) cs = some (.arr (jarrSnoc acc v), X2) := by
  rw [parseF, hv]
  show (match skipWs r with
      | ',' :: r2 => parseF f (.arrTail (jarrSnoc acc v)) r2
      | ']' :: r2 => some (.arr (jarrSnoc acc v), r2)
      | _ => none) = some (.arr (jarrSnoc acc v), X2)
  rw [hr]
  rfl

theorem pot_step_comma (f : Nat) (acc : JObj) (cs r : List Char) (k r1 r2 : List Char)
    (v : JVal) (r3 X4 : List Char)
    (h1 : skipWs cs = '"' :: r) (hk : parseJStr (r.length + 1) r = some (k, r1))
    (hc : skipWs r1 = ':' :: r2) (hv : parseF f .val r2 = some (v, r3))
    (hr : skipWs r3 = ',' :: X4) :
    parseF (f + 1) (.objTail acc) cs = parseF f (.objTail (jobjSnoc acc k v)) X4 := by
  rw [parseF, h1]
  show (match parseJStr (r.length + 1) r with
      | none => none
      | some (k, r1) =>
        match skipWs r1 with
        | ':' :: r2 =>
          match parseF f .val r2 with
          | none => none
          | some (v, r3) =>
            match skipWs r3 with
            | ',' :: r4 => parseF f (.objTail (jobjSnoc acc k v)) r4
            | c :: r4 => if c = rbraceC then some (.obj (jobjSnoc acc k v), r4) else none
            | [] => none
        | _ => none) = parseF f (.objTail (jobjSnoc acc k v)) X4
  rw [hk]
  show (match skipWs r1 with
      | ':' :: r2 =>
        match parseF f .val r2 with
        | none => none
        | some (v, r3) =>
          match skipWs r3 with
          | ',' :: r4 => parseF f (.objTail (jobjSnoc acc k v)) r4
          | c :: r4 => if c = rbraceC then some (.obj (jobjSnoc acc k v), r4) else none
          | [] => none
      | _ => none) = _
  rw [hc]
  show (match parseF f .val r2 with
      | none => none
      | some (v, r3) =>
        match skipWs r3 with
        | ',' :: r4 => parseF f (.objTail (jobjSnoc acc k v)) r4
        | c :: r4 => if c = rbraceC then some (.obj (jobjSnoc acc k v), r4) else none
        | [] => none) = _
  rw [hv]
  show (match skipWs r3 with
      | ',' :: r4 => parseF f (.objTail (jobjSnoc acc k v)) r4
      | c :: r4 => if c = rbraceC then some (.obj (jobjSnoc acc k v), r4) else none
      | [] => none) = _
  rw [hr]
  rfl

theorem pot_step_close (f : Nat) (acc : JObj) (cs r : List Char) (k r1 r2 : List Char)
    (v : JVal) (r3 X4 : List Char)
    (h1 : skipWs cs = '"' :: r) (hk : parseJStr (r.length + 1) r = some (k, r1))
    (hc : skipWs r1 = ':' :: r2) (hv : parseF f .val r2 = some (v, r3))
    (hr : skipWs r3 = rbraceC :: X4) :
    parseF (f + 1) (.objTail acc) cs = some (.obj (jobjSnoc acc k v), X4) := by
  rw [parseF, h1]
  show (match parseJStr (r.length + 1) r with
      | none => none
      | some (k, r1) =>
        match skipWs r1 with
        | ':' :: r2 =>
          match parseF f .val r2 with
          | none => none
          | some (v, r3) =>
            match skipWs r3 with
            | ',' :: r4 => parseF f (.objTail (jobjSnoc acc k v)) r4
            | c :: r4 => if c = rbraceC then some (.obj (jobjSnoc acc k v), r4) else none
            | [] => none
        | _ => none) = some (.obj (jobjSnoc acc k v), X4)
  rw [hk]
  show (match skipWs r1 with
      | ':' :: r2 =>
        match parseF f .val r2 with
        | none => none
        | some (v, r3) =>
          match skipWs r3 with
          | ',' :: r4 => parseF f (.objTail (jobjSnoc acc k v)) r4
          | c :: r4 => if c = rbraceC then some (.obj (jobjSnoc acc k v), r4) else none
          | [] => none
      | _ => none) = _
  rw [hc]
  show (match parseF f .val r2 with
      | none => none
      | some (v, r3) =>
        match skipWs r3 with
        | ',' :: r4 => parseF f (.objTail (jobjSnoc acc k v)) r4
        | c :: r4 => if c = rbraceC then some (.obj (jobjSnoc acc k v), r4) else none
        | [] => none) = _
  rw [hv]
  show (match skipWs r3 with
      | ',' :: r4 => parseF f (.objTail (jobjSnoc acc k v)) r4
      | c :: r4 => if c = rbraceC then some (.obj (jobjSnoc acc k v), r4) else none
      | [] => none) = _
  rw [hr]
  rfl

theorem jfuel_pos (v : JVal) : 1 ≤ jfuel v := by
  cases v <;> simp only [jfuel] <;> omega

/-! ### The parser inverts `dumps` on the safe fragment -/

mutual

theorem RT_val (v : JVal) (f : Nat) (rest : List Char)
    (hs : jsafeVal v = true) (hf : jfuel v ≤ f) (hrest : numDelimB rest = true) :
    parseF f .val (dumpsL v ++ rest) = some (v, rest) := by
  obtain ⟨f1, rfl⟩ : ∃ f1, f = f1 + 1 := ⟨f - 1, by have := jfuel_pos v; omega⟩
  cases v with
  | null => exact pv_null f1 rest
  | bool b =>
    cases b with
    | true => exact pv_true f1 rest
    | false => exact pv_false f1 rest
  | int n =>
    rw [show dumpsL (.int n) = intStr n from rfl, pv_intStr, parseJNum_intStr n rest hrest]
  | flt m e => simp [jsafeVal] at hs
  | str s =>
    have hsall : s.all jsafeChar = true := by simpa [jsafeVal] using hs
    have hflat : dumpsL (.str s) ++ rest = '"' :: (s.flatMap encStrChar ++ '"' :: rest) := by
      show dumpsStr s ++ rest = _
      simp [dumpsStr]
    rw [hflat, pv_quote]
    rw [parseJStr_rt s hsall rest ((s.flatMap encStrChar ++ '"' :: rest).length + 1)
      (by simp only [List.length_append, List.length_cons]; omega)]
    rfl
  | arr l =>
    cases l with
    | nil =>
      simp only [jfuel, jfuelArr] at hf
      obtain ⟨f2, rfl⟩ : ∃ f2, f1 = f2 + 1 := ⟨f1 - 1, by omega⟩
      show parseF (f2 + 1 + 1) .val ('[' :: ']' :: rest) = some (.arr .nil, rest)
      rw [pv_lbracket]
      exact pa_of_rbracket f2 _ rest (skipWs_not_ws ']' rest (by decide))
    | cons v2 t2 =>
      simp only [jfuel, jfuelArr] at hf
      obtain ⟨f2, rfl⟩ : ∃ f2, f1 = f2 + 1 := ⟨f1 - 1, by omega⟩
      have hsl : jsafeVal v2 = true ∧ jsafeArr t2 = true := by
        simpa [jsafeVal, jsafeArr, Bool.and_eq_true] using hs
      have hX : dumpsL (.arr (.cons v2 t2)) ++ rest
          = '[' :: (dumpsL v2 ++ (dumpsArr t2 ++ ']' :: rest)) := by
        show ('[' :: dumpsL v2 ++ dumpsArr t2 ++ [']']) ++ rest = _
        simp [List.append_assoc, List.cons_append]
      rw [hX, pv_lbracket]
      rw [pa_of_other f2 _ (by
        intro r he
        obtain ⟨c, t, hct, hws, hrb, _⟩ := dumps_head v2 hsl.1
        rw [hct, List.cons_append, skipWs_not_ws c _ hws] at he
        exact absurd (List.head_eq_of_cons_eq he) hrb)]
      rw [RT_arr v2 t2 .nil f2 rest hsl.1 hsl.2 (by omega)]
      rfl
  | obj o =>
    cases o with
    | nil =>
      simp only [jfuel, jfuelObj] at hf
      obtain ⟨f2, rfl⟩ : ∃ f2, f1 = f2 + 1 := ⟨f1 - 1, by omega⟩
      show parseF (f2 + 1 + 1) .val (lbraceC :: rbraceC :: rest) = some (.obj .nil, rest)
      rw [pv_lbrace]
      exact po_rbrace f2 _ rest (skipWs_not_ws rbraceC rest (by decide))
    | cons k2 v2 o2 =>
      simp only [jfuel, jfuelObj] at hf
      obtain ⟨f2, rfl⟩ : ∃ f2, f1 = f2 + 1 := ⟨f1 - 1, by omega⟩
      have hso : (k2.all jsafeChar = true ∧ jsafeVal v2 = true) ∧ jsafeObj o2 = true := by
        simpa [jsafeVal, jsafeObj, Bool.and_eq_true] using hs
      have hX : dumpsL (.obj (.cons k2 v2 o2)) ++ rest
          = lbraceC :: (dumpsStr k2
              ++ (':' :: ' ' :: (dumpsL v2 ++ (dumpsObj o2 ++ rbraceC :: rest)))) := by
        show (lbraceC :: dumpsStr k2 ++ ':' :: ' ' :: dumpsL v2 ++ dumpsObj o2 ++ [rbraceC])
            ++ rest = _
        simp [List.append_assoc, List.cons_append]
      rw [hX, pv_lbrace]
      have hkh : dumpsStr k2 ++ (':' :: ' ' :: (dumpsL v2 ++ (dumpsObj o2 ++ rbraceC :: rest)))
          = '"' :: (k2.flatMap encStrChar
              ++ '"' :: (':' :: ' ' :: (dumpsL v2 ++ (dumpsObj o2 ++ rbraceC :: rest)))) := by
        simp [dumpsStr]
      rw [po_other f2 _ '"' _ (by rw [hkh]; exact skipWs_not_ws '"' _ (by decide)) (by decide)]
      rw [RT_obj k2 v2 o2 .nil f2 rest hso.1.1 hso.1.2 hso.2 (by omega)]
      rfl
termination_by 2 * sizeOf v
decreasing_by all_goals (subst_vars; simp_wf; try omega)

theorem RT_arr (v : JVal) (t : JArr) (acc : JArr) (f : Nat) (rest : List Char)
    (hsv : jsafeVal v = true) (hst : jsafeArr t = true)
    (hf : jfuel v + jfuelArr t + 1 ≤ f) :
    parseF f (.arrTail acc) (dumpsL v ++ (dumpsArr t ++ ']' :: rest))
      = some (.arr (jarrAppend acc (.cons v t)), rest) := by
  obtain ⟨f1, rfl⟩ : ∃ f1, f = f1 + 1 := ⟨f - 1, by omega⟩
  have hv := RT_val v f1 (dumpsArr t ++ ']' :: rest) hsv (by omega) (numDelim_arrCont t rest)
  cases t with
  | nil =>
    rw [pat_step_close f1 acc _ v _ rest hv (skipWs_not_ws ']' rest (by decide))]
    rw [jarrSnoc_eq_append]
  | cons v2 t2 =>
    simp only [jsafeArr, Bool.and_eq_true] at hst
    simp only [jfuelArr] at hf
    have h0 : dumpsArr (JArr.cons v2 t2) ++ ']' :: rest
        = ',' :: ' ' :: (dumpsL v2 ++ (dumpsArr t2 ++ ']' :: rest)) := by
      show (',' :: ' ' :: dumpsL v2 ++ dumpsArr t2) ++ ']' :: rest = _
      simp [List.append_assoc, List.cons_append]
    have hr : skipWs (dumpsArr (JArr.cons v2 t2) ++ ']' :: rest)
        = ',' :: (' ' :: (dumpsL v2 ++ (dumpsArr t2 ++ ']' :: rest))) := by
      rw [h0]
      exact skipWs_not_ws ',' _ (by decide)
    rw [pat_step_comma f1 acc _ v _ _ hv hr, pat_space]
    rw [RT_arr v2 t2 (jarrSnoc acc v) f1 rest hst.1 hst.2 (by omega)]
    rw [jarrAppend_snoc]
termination_by 2 * (sizeOf v + sizeOf t) + 1
decreasing_by all_goals (subst_vars; simp_wf; try omega)

theorem RT_obj (k : List Char) (v : JVal) (o : JObj) (acc : JObj) (f : Nat) (rest : List Char)
    (hsk : k.all jsafeChar = true) (hsv : jsafeVal v = true) (hso : jsafeObj o = true)
    (hf : jfuel v + jfuelObj o + 1 ≤ f) :
    parseF f (.objTail acc)
        (dumpsStr k ++ (':' :: ' ' :: (dumpsL v ++ (dumpsObj o ++ rbraceC :: rest))))
      = some (.obj (jobjAppend acc (.cons k v o)), rest) := by
  obtain ⟨f1, rfl⟩ : ∃ f1, f = f1 + 1 := ⟨f - 1, by omega⟩
  have hkh : dumpsStr k ++ (':' :: ' ' :: (dumpsL v ++ (dumpsObj o ++ rbraceC :: rest)))
      = '"' :: (k.flatMap encStrChar
          ++ '"' :: (':' :: ' ' :: (dumpsL v ++ (dumpsObj o ++ rbraceC :: rest)))) := by
    simp [dumpsStr]
  have h1 : skipWs (dumpsStr k
        ++ (':' :: ' ' :: (dumpsL v ++ (dumpsObj o ++ rbraceC :: rest))))
      = '"' :: (k.flatMap encStrChar
          ++ '"' :: (':' :: ' ' :: (dumpsL v ++ (dumpsObj o ++ rbraceC :: rest)))) := by
    rw [hkh]
    exact skipWs_not_ws '"' _ (by decide)
  have hk2 : parseJStr ((k.flatMap encStrChar
        ++ '"' :: (':' :: ' ' :: (dumpsL v ++ (dumpsObj o ++ rbraceC :: rest)))).length + 1)
      (k.flatMap encStrChar ++ '"' :: (':' :: ' ' :: (dumpsL v ++ (dumpsObj o ++ rbraceC :: rest))))
      = some (k, ':' :: ' ' :: (dumpsL v ++ (dumpsObj o ++ rbraceC :: rest))) :=
    parseJStr_rt k hsk _ _ (by simp only [List.length_append, List.length_cons]; omega)
  have hc : skipWs (':' :: ' ' :: (dumpsL v ++ (dumpsObj o ++ rbraceC :: rest)))
      = ':' :: (' ' :: (dumpsL v ++ (dumpsObj o ++ rbraceC :: rest))) :=
    skipWs_not_ws ':' _ (by decide)
  have hvv : parseF f1 .val (' ' :: (dumpsL v ++ (dumpsObj o ++ rbraceC :: rest)))
      = some (v, dumpsObj o ++ rbraceC :: rest) := by
    rw [pv_space]
    exact RT_val v f1 (dumpsObj o ++ rbraceC :: rest) hsv (by omega) (numDelim_objCont o rest)
  cases o with
  | nil =>
    have hr : skipWs (dumpsObj JObj.nil ++ rbraceC :: rest) = rbraceC :: rest :=
      skipWs_not_ws rbraceC rest (by decide)
    rw [pot_step_close f1 acc _ _ k _ _ v _ rest h1 hk2 hc hvv hr]
    rw [jobjSnoc_eq_append]
  | cons k2 v2 o2 =>
    simp only [jsafeObj, Bool.and_eq_true] at hso
    simp only [jfuelObj] at hf
    have h0 : dumpsObj (JObj.cons k2 v2 o2) ++ rbraceC :: rest
        = ',' :: ' ' :: (dumpsStr k2
            ++ (':' :: ' ' :: (dumpsL v2 ++ (dumpsObj o2 ++ rbraceC :: rest)))) := by
      show (',' :: ' ' :: dumpsStr k2 ++ ':' :: ' ' :: dumpsL v2 ++ dumpsObj o2)
          ++ rbraceC :: rest = _
      simp [List.append_assoc, List.cons_append]
    have hr : skipWs (dumpsObj (JObj.cons k2 v2 o2) ++ rbraceC :: rest)
        = ',' :: (' ' :: (dumpsStr k2
            ++ (':' :: ' ' :: (dumpsL v2 ++ (dumpsObj o2 ++ rbraceC :: rest))))) := by
      rw [h0]
      exact skipWs_not_ws ',' _ (by decide)
    rw [pot_step_comma f1 acc _ _ k _ _ v _ _ h1 hk2 hc hvv hr, pot_space]
    rw [RT_obj k2 v2 o2 (jobjSnoc acc k v) f1 rest hso.1.1 hso.1.2 hso.2 (by omega)]
    rw [jobjAppend_snoc]
termination_by 2 * (sizeOf v + sizeOf o) + 1
decreasing_by all_goals (subst_vars; simp_wf; try omega)

end

mutual

theorem jfuel_le_val (v : JVal) : jfuel v ≤ 4 * (dumpsL v).length + 6 := by
  cases v with
  | null => simp only [jfuel]; omega
  | bool b => simp only [jfuel]; omega
  | int n => simp only [jfuel]; omega
  | flt m e => simp only [jfuel]; omega
  | str s => simp only [jfuel]; omega
  | arr l =>
    cases l with
    | nil =>
      have hL : (dumpsL (JVal.arr JArr.nil)).length = 2 := rfl
      simp only [jfuel, jfuelArr]
      omega
    | cons v2 t2 =>
      have h2 := jfuel_le_arr (JArr.cons v2 t2)
      have hL : (dumpsL (JVal.arr (JArr.cons v2 t2))).length
          = (dumpsArr (JArr.cons v2 t2)).length := by
        show ('[' :: dumpsL v2 ++ dumpsArr t2 ++ [']']).length
          = (',' :: ' ' :: dumpsL v2 ++ dumpsArr t2).length
        simp
        omega
      simp only [jfuel]
      omega
  | obj o =>
    cases o with
    | nil =>
      have hL : (dumpsL (JVal.obj JObj.nil)).length = 2 := rfl
      simp only [jfuel, jfuelObj]
      omega
    | cons k2 v2 o2 =>
      have h2 := jfuel_le_obj (JObj.cons k2 v2 o2)
      have hL : (dumpsL (JVal.obj (JObj.cons k2 v2 o2))).length
          = (dumpsObj (JObj.cons k2 v2 o2)).length := by
        show (lbraceC :: dumpsStr k2 ++ ':' :: ' ' :: dumpsL v2 ++ dumpsObj o2
            ++ [rbraceC]).length
          = (',' :: ' ' :: dumpsStr k2 ++ ':' :: ' ' :: dumpsL v2 ++ dumpsObj o2).length
        simp
        omega
      simp only [jfuel]
      omega
termination_by sizeOf v

theorem jfuel_le_arr (t : JArr) : jfuelArr t ≤ 4 * (dumpsArr t).length + 1 := by
  cases t with
  | nil => simp only [jfuelArr]; omega
  | cons v2 t2 =>
    have h1 := jfuel_le_val v2
    have h2 := jfuel_le_arr t2
    have hLA : (dumpsArr (JArr.cons v2 t2)).length
        = 2 + (dumpsL v2).length + (dumpsArr t2).length := by
      show (',' :: ' ' :: dumpsL v2 ++ dumpsArr t2).length = _
      simp
      omega
    simp only [jfuelArr]
    omega
termination_by sizeOf t

theorem jfuel_le_obj (o : JObj) : jfuelObj o ≤ 4 * (dumpsObj o).length + 1 := by
  cases o with
  | nil => simp only [jfuelObj]; omega
  | cons k2 v2 o2 =>
    have h1 := jfuel_le_val v2
    have h2 := jfuel_le_obj o2
    have hLO : (dumpsObj (JObj.cons k2 v2 o2)).length
        = 4 + (dumpsStr k2).length + (dumpsL v2).length + (dumpsObj o2).length := by
      show (',' :: ' ' :: dumpsStr k2 ++ ':' :: ' ' :: dumpsL v2 ++ dumpsObj o2).length = _
      simp
      omega
    simp only [jfuelObj]
    omega
termination_by sizeOf o

end

/-- On the safe fragment, `json.loads` inverts `json.dumps`. -/
theorem loads_dumps (v : JVal) (hs : jsafeVal v = true) : loads (dumpsL v) = some v := by
  unfold loads
  have h := RT_val v (4 * (dumpsL v).length + 8) [] hs
    (by have := jfuel_le_val v; omega) rfl
  rw [List.append_nil] at h
  rw [h]
  rfl

/-! ### First-occurrence structure of the envelope text under the cleanup -/

theorem startsWithL_self_append : ∀ sep Z : List Char, startsWithL sep (sep ++ Z) = true := by
  intro sep
  induction sep with
  | nil => intro Z; rfl
  | cons p ps ih =>
    intro Z
    rw [List.cons_append]
    show (decide (p = p) && startsWithL ps (ps ++ Z)) = true
    rw [ih Z]
    simp

theorem startsWith_occurs (sep s : List Char) (h : startsWithL sep s = true) :
    occursIn sep s = true := by
  cases s with
  | nil => simpa [occursIn] using h
  | cons c r => simp [occursIn, h]

theorem startsWith_of_append_left :
    ∀ sep Y T : List Char, sep.length ≤ Y.length →
      startsWithL sep (Y ++ T) = startsWithL sep Y := by
  intro sep
  induction sep with
  | nil => intro Y T _; rfl
  | cons p ps ih =>
    intro Y T hlen
    cases Y with
    | nil => simp at hlen
    | cons c ys =>
      rw [List.cons_append]
      show (decide (p = c) && startsWithL ps (ys ++ T))
        = (decide (p = c) && startsWithL ps ys)
      rw [ih ys T (by simpa using hlen)]

theorem split_pref (sep Z : List Char) (hsep : sep ≠ [])
    (hno : occursIn sep Z = false) : splitOnL sep (sep ++ Z) = [[], Z] := by
  unfold splitOnL
  have hne : sep.isEmpty = false := by
    cases sep with
    | nil => exact absurd rfl hsep
    | cons a b => rfl
  rw [splitOnAux.eq_def]
  simp only [startsWithL_self_append sep Z, hne, Bool.not_false, Bool.and_true, if_true]
  rw [List.drop_left]
  rw [splitOnAux_noOccur sep Z _ (by
    simp only [List.length_append]
    cases sep with
    | nil => exact absurd rfl hsep
    | cons a b => simp only [List.length_cons]; omega) hno]

theorem split6_headD_exact : ∀ X : List Char, occursIn sep6 (X ++ S "]]]]]") = false →
    (splitOnL sep6 (X ++ sep6)).headD [] = X := by
  intro X
  induction X with
  | nil => intro _; decide
  | cons c X2 ih =>
    intro hO
    have hOr : occursIn sep6 (X2 ++ S "]]]]]") = false := by
      rw [List.cons_append] at hO
      simp only [occursIn, Bool.or_eq_false_iff] at hO
      exact hO.2
    have hsw : startsWithL sep6 (c :: (X2 ++ sep6)) = false := by
      by_contra hc
      rw [Bool.not_eq_false] at hc
      have hx : ((c :: X2) ++ S "]]]]]") ++ [']'] = c :: (X2 ++ sep6) := by
        rw [List.append_assoc, show S "]]]]]" ++ [']'] = sep6 from rfl]
        rfl
      have h2 : startsWithL sep6 (((c :: X2) ++ S "]]]]]") ++ [']']) = true := by
        rw [hx]
        exact hc
      rw [startsWith_of_append_left sep6 _ [']'] (by
        rw [List.length_append, show (sep6 : List Char).length = 6 from rfl,
          show (S "]]]]]" : List Char).length = 5 from rfl, List.length_cons]
        omega)] at h2
      have h4 := startsWith_occurs _ _ h2
      rw [h4] at hO
      exact Bool.noConfusion hO
    rw [List.cons_append, split_head_cons sep6 c _ hsw, ih hOr]

theorem escEmb_append (a b : List Char) : escEmb (a ++ b) = escEmb a ++ escEmb b := by
  simp [escEmb]

theorem envelope_normal (Q : List Char) :
    escEmb (sep5 ++ (Q ++ S "]]]]")) ++ S "]]" = sep5 ++ (escEmb Q ++ sep6) := by
  rw [escEmb_append, escEmb_append]
  rw [show escEmb sep5 = sep5 from rfl, show escEmb (S "]]]]") = S "]]]]" from rfl]
  rw [List.append_assoc, List.append_assoc]
  rw [show S "]]]]" ++ S "]]" = sep6 from rfl]

theorem replBB_bsbs (rest : List Char) : replBB ('\\' :: '\\' :: rest) = '\\' :: replBB rest := rfl

theorem replBB_escEmb : ∀ Q t : List Char, replBB (escEmb Q ++ t) = escQ Q ++ replBB t := by
  intro Q
  induction Q with
  | nil => intro t; rfl
  | cons c Q2 ih =>
    intro t
    by_cases hb : c = '\\'
    · subst hb
      rw [show escEmb ('\\' :: Q2) = '\\' :: '\\' :: escEmb Q2 from by simp [escEmb]]
      rw [List.cons_append, List.cons_append, replBB_bsbs, ih]
      rw [show escQ ('\\' :: Q2) = '\\' :: escQ Q2 from by simp [escQ], List.cons_append]
    · by_cases hq : c = '"'
      · subst hq
        rw [show escEmb ('"' :: Q2) = '\\' :: '"' :: escEmb Q2 from by simp [escEmb]]
        rw [List.cons_append, List.cons_append, replBB_cons_bs_ne '"' _ (by decide),
          replBB_cons_ne '"' _ (by decide), ih]
        rw [show escQ ('"' :: Q2) = '\\' :: '"' :: escQ Q2 from by simp [escQ]]
        rw [List.cons_append, List.cons_append]
      · rw [show escEmb (c :: Q2) = c :: escEmb Q2 from by simp [escEmb, hb, hq]]
        rw [List.cons_append, replBB_cons_ne c _ hb, ih]
        rw [show escQ (c :: Q2) = c :: escQ Q2 from by simp [escQ, hq], List.cons_append]

theorem escQ_append_head (Q t : List Char) (ht : ∀ r, t ≠ '"' :: r) :
    ∀ r, escQ Q ++ t ≠ '"' :: r := by
  cases Q with
  | nil => simpa [escQ] using ht
  | cons c Q2 =>
    intro r he
    by_cases hq : c = '"'
    · subst hq
      rw [show escQ ('"' :: Q2) = '\\' :: '"' :: escQ Q2 from by simp [escQ],
        List.cons_append] at he
      exact absurd (List.head_eq_of_cons_eq he) (by decide)
    · rw [show escQ (c :: Q2) = c :: escQ Q2 from by simp [escQ, hq],
        List.cons_append] at he
      exact absurd (List.head_eq_of_cons_eq he) hq

theorem escQ_ne_nil (c : Char) (Q2 : List Char) : escQ (c :: Q2) ≠ [] := by
  by_cases hq : c = '"'
  · subst hq
    rw [show escQ ('"' :: Q2) = '\\' :: '"' :: escQ Q2 from by simp [escQ]]
    simp
  · rw [show escQ (c :: Q2) = c :: escQ Q2 from by simp [escQ, hq]]
    simp

theorem replBQ_escQ : ∀ Q t : List Char, (∀ r, t ≠ '"' :: r) →
    replBQ (escQ Q ++ t) = Q ++ replBQ t := by
  intro Q
  induction Q with
  | nil => intro t ht; rfl
  | cons c Q2 ih =>
    intro t ht
    by_cases hq : c = '"'
    · subst hq
      rw [show escQ ('"' :: Q2) = '\\' :: '"' :: escQ Q2 from by simp [escQ]]
      rw [List.cons_append, List.cons_append]
      rw [show ∀ X, replBQ ('\\' :: '"' :: X) = '"' :: replBQ X from fun X => rfl]
      rw [ih t ht]
      rfl
    · by_cases hb : c = '\\'
      · subst hb
        rw [show escQ ('\\' :: Q2) = '\\' :: escQ Q2 from by simp [escQ], List.cons_append]
        cases hE : escQ Q2 ++ t with
        | nil =>
          obtain ⟨h1, h2⟩ := List.append_eq_nil.mp hE
          cases Q2 with
          | nil =>
            subst h2
            rfl
          | cons d Q3 => exact absurd h1 (escQ_ne_nil d Q3)
        | cons d E2 =>
          have hd : d ≠ '"' := by
            intro hd2
            subst hd2
            exact escQ_append_head Q2 t ht E2 hE
          have hstep : replBQ (escQ Q2 ++ t) = Q2 ++ replBQ t := ih t ht
          rw [hE] at hstep
          rw [replBQ_cons_bs_ne d E2 hd, hstep]
          rfl
      · rw [show escQ (c :: Q2) = c :: escQ Q2 from by simp [escQ, hq], List.cons_append]
        rw [replBQ_cons_ne c _ hb, ih t ht]
        rfl

theorem replNL_of_all (X : List Char) (h : ∀ c ∈ X, c ≠ '\n') : replNL X = X := by
  unfold replNL
  rw [List.filter_eq_self]
  intro a ha
  simp [h a ha]

theorem pyCut2_append2 (X : List Char) : pyCut2 (X ++ S "]]") = X := by
  unfold pyCut2
  rw [List.length_append, show (S "]]").length = 2 from rfl,
    show X.length + 2 - 2 = X.length from by omega, List.take_left]

/-- Running the cleanup on a correctly enveloped double-escaped payload
recovers the single-encoded text: the five-bracket sentinel survives, the
first six-close-bracket run is the payload's own four closers plus the two
extra characters, the two unescape passes undo the double escaping, and
`[:-2]` removes exactly the two re-appended characters. -/
theorem cleanupResp_envelope (Q : List Char)
    (hno5 : occursIn sep5 (escEmb Q ++ sep6) = false)
    (hno6 : occursIn sep6 (escEmb Q ++ S "]]]]]") = false)
    (hQnl : ∀ c ∈ Q, c ≠ '\n') :
    cleanupResp (sep5 ++ (escEmb Q ++ sep6)) = sep5 ++ (Q ++ S "]]]]") := by
  unfold cleanupResp
  dsimp only
  rw [split_pref sep5 (escEmb Q ++ sep6) (by decide) hno5]
  rw [show ([([] : List Char), escEmb Q ++ sep6].getD 1 []) = escEmb Q ++ sep6 from rfl]
  rw [getD_zero_headD, split6_head_sep5, ← List.append_assoc,
    split6_headD_exact (escEmb Q) hno6]
  rw [List.append_assoc, replBB_sep5, replBB_escEmb,
    show replBB sep6 = sep6 from rfl]
  rw [replBQ_sep5, replBQ_escQ Q sep6
    (fun r he => absurd (List.head_eq_of_cons_eq he) (by decide)),
    show replBQ sep6 = sep6 from rfl]
  rw [replNL_sep5, replNL_of_all (Q ++ sep6) (by
    intro a ha
    rcases List.mem_append.mp ha with h | h
    · exact hQnl a h
    · have : a = ']' := by
        simp only [sep6, S] at h
        simp at h
        exact h
      rw [this]
      decide)]
  rw [show (sep6 : List Char) = S "]]]]" ++ S "]]" from rfl, ← List.append_assoc,
    ← List.append_assoc, pyCut2_append2, List.append_assoc]

/-- C4 (counterexample): the claim's own construction fails.  The valid
row array `[[["x"]]]` single-encodes and parses back fine, and its
double-escaped envelope carries the five-open-bracket sentinel and the
trailing comma the specification says the cleanup drops — yet `extract`
on that text raises instead of round-tripping, because the final step
removes two characters (not the comma) and the re-appended six-bracket
sentinel then breaks the JSON. -/
theorem C4_counterexample :
    loads (dumpsL c4ceA) = some c4ceA ∧
    occursIn sep5 (claimEnvelope c4ceA) = true ∧
    fix_json_response (claimEnvelope c4ceA) = .error () := by
  refine ⟨rfl, rfl, rfl⟩

/-- C4: corrected round trip.  For a safe JSON row array whose
serialization `[[rows]]` opens with the five-bracket sentinel and closes
with four close brackets, the double-escaped envelope followed by two
extra close brackets (completing the six-bracket sentinel — not a
trailing comma) extracts to exactly the row sequence of the array, which
itself round-trips through the single encoding; the run conditions are
that the sentinels do not occur earlier in the escaped payload and the
payload is newline-free. -/
theorem C4_envelope_roundtrip (rows : JArr) (Q : List Char)
    (hsafe : jsafeVal (.arr rows) = true)
    (hP : dumpsL (wrap2 (.arr rows)) = sep5 ++ (Q ++ S "]]]]"))
    (hno5 : occursIn sep5 (escEmb Q ++ sep6) = false)
    (hno6 : occursIn sep6 (escEmb Q ++ S "]]]]]") = false)
    (hQnl : ∀ c ∈ Q, c ≠ '\n') :
    loads (dumpsL (.arr rows)) = some (.arr rows) ∧
    fix_json_response (escEmb (dumpsL (wrap2 (.arr rows))) ++ S "]]")
      = .ok (jarrToList rows) := by
  have hw2 : jsafeVal (wrap2 (.arr rows)) = true := by
    have hra : jsafeArr rows = true := by simpa [jsafeVal] using hsafe
    simp [wrap2, jsafeVal, jsafeArr, hra]
  constructor
  · exact loads_dumps (.arr rows) hsafe
  · rw [hP, envelope_normal]
    have hclean := cleanupResp_envelope Q hno5 hno6 hQnl
    unfold fix_json_response
    rw [startsWith_occurs sep5 _ (startsWithL_self_append sep5 _), if_pos rfl]
    rw [hclean, ← hP, loads_dumps (wrap2 (.arr rows)) hw2]
    rfl

/-- C4 witness: the amended round trip at the concrete payload
`[[[1]], [2, "y"]]`. -/
theorem C4_witness :
    loads (dumpsL (JVal.arr (jlist
        [.arr (.cons (.arr (.cons (.int 1) .nil)) .nil),
         .arr (jlist [.int 2, .str (S "y")])])))
      = some (JVal.arr (jlist
        [.arr (.cons (.arr (.cons (.int 1) .nil)) .nil),
         .arr (jlist [.int 2, .str (S "y")])])) ∧
    fix_json_response (escEmb (dumpsL (wrap2 (JVal.arr (jlist
        [.arr (.cons (.arr (.cons (.int 1) .nil)) .nil),
         .arr (jlist [.int 2, .str (S "y")])])))) ++ S "]]")
      = .ok (jarrToList (jlist
        [.arr (.cons (.arr (.cons (.int 1) .nil)) .nil),
         .arr (jlist [.int 2, .str (S "y")])])) :=
  C4_envelope_roundtrip
    (jlist [.arr (.cons (.arr (.cons (.int 1) .nil)) .nil),
            .arr (jlist [.int 2, .str (S "y")])])
    (S "1]], [2, \"y\"")
    (by decide) (by rfl) (by decide) (by decide) (by decide)

/-! ### Character classes of the request builder -/

theorem plain_jsafe (c : Char) (h : plainQChar c = true) : jsafeChar c = true := by
  unfold plainQChar at h
  rw [Bool.and_eq_true, Bool.and_eq_true] at h
  exact h.1.1

theorem all_plain_jsafe (s : List Char) (h : s.all plainQChar = true) :
    s.all jsafeChar = true := by
  rw [List.all_eq_true] at h ⊢
  exact fun c hc => plain_jsafe c (h c hc)

theorem natStr_all_jsafe (n : Nat) : (natStr n).all jsafeChar = true := by
  induction n using Nat.strong_induction_on with
  | _ n ih =>
    by_cases h10 : n < 10
    · rw [natStr_lt10 n h10]
      have hd : jsafeChar (Char.ofNat (48 + n)) = true := by interval_cases n <;> decide
      simp [hd]
    · rw [natStr_ge10 n (by omega), List.all_append, ih (n / 10) (by omega)]
      have hd : jsafeChar (Char.ofNat (48 + n % 10)) = true := by
        have hm : n % 10 < 10 := by omega
        set m := n % 10 with hm2
        interval_cases m <;> decide
      simp [hd]

theorem intStr_jsafe (n : Int) : (intStr n).all jsafeChar = true := by
  unfold intStr
  split
  · rw [List.all_cons, natStr_all_jsafe n.natAbs]
    decide
  · exact natStr_all_jsafe _

theorem all_mono {p q : Char → Bool} (s : List Char) (h : s.all p = true)
    (himp : ∀ c, p c = true → q c = true) : s.all q = true := by
  rw [List.all_eq_true] at h ⊢
  exact fun c hc => himp c (h c hc)

theorem flatMap_all {f : Char → List Char} {p : Char → Bool} :
    ∀ s : List Char, (∀ c ∈ s, (f c).all p = true) → (s.flatMap f).all p = true := by
  intro s
  induction s with
  | nil => intro _; rfl
  | cons c r ih =>
    intro h
    rw [List.flatMap_cons, List.all_append, h c (List.mem_cons_self c r),
      ih (fun d hd => h d (List.mem_cons_of_mem c hd))]
    rfl

theorem encStrChar_ascii (c : Char) (h : jsafeChar c = true) :
    (encStrChar c).all (fun c2 => decide (c2.toNat < 0x80)) = true := by
  by_cases hq : c = '"'
  · subst hq; decide
  · by_cases hb : c = '\\'
    · subst hb; decide
    · rw [encStrChar_plain c h hq hb]
      have := (jsafe_char_facts c h).2.2.2.2.2.2
      simp [this]

theorem dumpsStr_ascii (k : List Char) (hk : k.all jsafeChar = true) :
    (dumpsStr k).all (fun c => decide (c.toNat < 0x80)) = true := by
  show (('"' :: k.flatMap encStrChar) ++ ['"']).all _ = true
  rw [List.all_append, List.all_cons, flatMap_all k (fun c hc => encStrChar_ascii c (by
    rw [List.all_eq_true] at hk
    exact hk c hc))]
  decide

mutual

theorem dumps_ascii_val (v : JVal) (hs : jsafeVal v = true) :
    (dumpsL v).all (fun c => decide (c.toNat < 0x80)) = true := by
  cases v with
  | null => decide
  | bool b => cases b <;> decide
  | int n =>
    exact all_mono (intStr n) (intStr_jsafe n)
      (fun c hc => by
        have := (jsafe_char_facts c hc).2.2.2.2.2.2
        simpa using this)
  | flt m e => simp [jsafeVal] at hs
  | str s =>
    have hsl : s.all jsafeChar = true := by simpa [jsafeVal] using hs
    exact dumpsStr_ascii s hsl
  | arr l =>
    cases l with
    | nil => decide
    | cons v2 t2 =>
      have hsl : jsafeVal v2 = true ∧ jsafeArr t2 = true := by
        simpa [jsafeVal, jsafeArr, Bool.and_eq_true] using hs
      show ((('[' :: dumpsL v2) ++ dumpsArr t2) ++ [']']).all _ = true
      rw [List.all_append, List.all_append, List.all_cons,
        dumps_ascii_val v2 hsl.1, dumps_ascii_arr t2 hsl.2]
      decide
  | obj o =>
    cases o with
    | nil => decide
    | cons k2 v2 o2 =>
      have hso : (k2.all jsafeChar = true ∧ jsafeVal v2 = true) ∧ jsafeObj o2 = true := by
        simpa [jsafeVal, jsafeObj, Bool.and_eq_true] using hs
      have hks : (dumpsStr k2).all (fun c => decide (c.toNat < 0x80)) = true :=
        dumpsStr_ascii k2 hso.1.1
      show ((((lbraceC :: dumpsStr k2) ++ (':' :: ' ' :: dumpsL v2)) ++ dumpsObj o2)
          ++ [rbraceC]).all _ = true
      rw [List.all_append, List.all_append, List.all_append, List.all_cons,
        List.all_cons, List.all_cons, hks,
        dumps_ascii_val v2 hso.1.2, dumps_ascii_obj o2 hso.2]
      decide
termination_by sizeOf v
decreasing_by all_goals (subst_vars; simp_wf; try omega)

theorem dumps_ascii_arr (t : JArr) (hs : jsafeArr t = true) :
    (dumpsArr t).all (fun c => decide (c.toNat < 0x80)) = true := by
  cases t with
  | nil => decide
  | cons v2 t2 =>
    have hsl : jsafeVal v2 = true ∧ jsafeArr t2 = true := by
      simpa [jsafeArr, Bool.and_eq_true] using hs
    show ((',' :: ' ' :: dumpsL v2) ++ dumpsArr t2).all _ = true
    rw [List.all_append, List.all_cons, List.all_cons,
      dumps_ascii_val v2 hsl.1, dumps_ascii_arr t2 hsl.2]
    decide
termination_by sizeOf t
decreasing_by all_goals (subst_vars; simp_wf; try omega)

theorem dumps_ascii_obj (o : JObj) (hs : jsafeObj o = true) :
    (dumpsObj o).all (fun c => decide (c.toNat < 0x80)) = true := by
  cases o with
  | nil => decide
  | cons k2 v2 o2 =>
    have hso : (k2.all jsafeChar = true ∧ jsafeVal v2 = true) ∧ jsafeObj o2 = true := by
      simpa [jsafeObj, Bool.and_eq_true] using hs
    have hks : (dumpsStr k2).all (fun c => decide (c.toNat < 0x80)) = true :=
      dumpsStr_ascii k2 hso.1.1
    show (((',' :: ' ' :: dumpsStr k2) ++ (':' :: ' ' :: dumpsL v2)) ++ dumpsObj o2).all _
        = true
    rw [List.all_append, List.all_append, List.all_cons, List.all_cons, List.all_cons,
      List.all_cons, hks, dumps_ascii_val v2 hso.1.2, dumps_ascii_obj o2 hso.2]
    decide
termination_by sizeOf o
decreasing_by all_goals (subst_vars; simp_wf; try omega)

end

/-! ### Percent-encoding round trip on ASCII -/

theorem hexVal_hexDigU (m : Nat) (h : m < 16) : hexVal (hexDigU m) = some m := by
  interval_cases m <;> decide

theorem pyUnquote_cons_ne (c : Char) (X : List Char) (h : c ≠ '%') :
    pyUnquote (c :: X) = c :: pyUnquote X := by
  rw [pyUnquote]
  · intro h1 h2 r2 hc
    exact absurd hc h

theorem pyUnquote_triple (h1 h2 : Char) (r : List Char) (a b : Nat)
    (ha : hexVal h1 = some a) (hb : hexVal h2 = some b) :
    pyUnquote ('%' :: h1 :: h2 :: r) = Char.ofNat (16 * a + b) :: pyUnquote r := by
  rw [pyUnquote, ha, hb]

theorem utf8_ascii (c : Char) (h : c.toNat < 0x80) : utf8Bytes c = [c.toNat] := by
  simp [utf8Bytes, h]

theorem pyUnquote_pyQuote (s : List Char)
    (h : s.all (fun c => decide (c.toNat < 0x80)) = true) :
    pyUnquote (pyQuote s) = s := by
  induction s with
  | nil => rfl
  | cons c r ih =>
    rw [List.all_cons, Bool.and_eq_true] at h
    have hc : c.toNat < 0x80 := by simpa using h.1
    rw [show pyQuote (c :: r)
        = (if quoteSafe c then [c]
           else (utf8Bytes c).flatMap
             (fun b => ['%', hexDigU (b / 16), hexDigU (b % 16)])) ++ pyQuote r
      from by simp [pyQuote]]
    by_cases hs : quoteSafe c = true
    · rw [if_pos hs, List.singleton_append,
        pyUnquote_cons_ne c _ (by
          intro he
          rw [he] at hs
          exact absurd hs (by decide)),
        ih h.2]
    · rw [if_neg hs, utf8_ascii c hc]
      rw [show ([c.toNat].flatMap (fun b => ['%', hexDigU (b / 16), hexDigU (b % 16)]))
          = ['%', hexDigU (c.toNat / 16), hexDigU (c.toNat % 16)] from by simp]
      rw [show (['%', hexDigU (c.toNat / 16), hexDigU (c.toNat % 16)] : List Char)
            ++ pyQuote r
          = '%' :: hexDigU (c.toNat / 16) :: hexDigU (c.toNat % 16) :: pyQuote r from rfl]
      rw [pyUnquote_triple _ _ _ (c.toNat / 16) (c.toNat % 16)
        (hexVal_hexDigU _ (by omega)) (hexVal_hexDigU _ (by omega)), ih h.2]
      congr 1
      rw [show 16 * (c.toNat / 16) + c.toNat % 16 = c.toNat from by omega, Char.ofNat_toNat]

theorem subPayload_jsafe (q : List Char) (a : Int) (t : Option (List Char))
    (hq : q.all plainQChar = true)
    (ht : ∀ s, t = some s → s.all plainQChar = true) :
    (subPayload q a t).all jsafeChar = true := by
  cases t with
  | none =>
    show ((((S "[[null,[[3,\"" ++ q) ++ S "\",null,null,2,[") ++ intStr a)
        ++ S "]]]]]").all jsafeChar = true
    rw [List.all_append, List.all_append, List.all_append, List.all_append,
      all_plain_jsafe q hq, intStr_jsafe a]
    decide
  | some s =>
    have hs := ht s rfl
    show ((((((S "[[null,[[3,\"" ++ q) ++ S "\",null,null,2,[") ++ intStr a)
        ++ S ",\"") ++ s) ++ S "\"]]]]]").all jsafeChar = true
    rw [List.all_append, List.all_append, List.all_append, List.all_append,
      List.all_append, List.all_append,
      all_plain_jsafe q hq, all_plain_jsafe s hs, intStr_jsafe a]
    decide

theorem reqVal_jsafe (q : List Char) (a : Int) (t : Option (List Char))
    (hq : q.all plainQChar = true)
    (ht : ∀ s, t = some s → s.all plainQChar = true) :
    jsafeVal (reqVal q a t) = true := by
  have hsub := subPayload_jsafe q a t hq ht
  simp [reqVal, jsafeVal, jsafeArr, jlist, hsub,
    show (S "zTyKYc").all jsafeChar = true from by decide,
    show (S "generic").all jsafeChar = true from by decide]

/-! ### Symbolic parse of the f-string sub-payload -/

theorem flatMap_encStr_plain (q : List Char) (hq : q.all plainQChar = true) :
    q.flatMap encStrChar = q := by
  induction q with
  | nil => rfl
  | cons c r ih =>
    rw [List.all_cons, Bool.and_eq_true] at hq
    have hc := hq.1
    unfold plainQChar at hc
    rw [Bool.and_eq_true, Bool.and_eq_true, decide_eq_true_eq, decide_eq_true_eq] at hc
    rw [List.flatMap_cons, encStrChar_plain c hc.1.1 hc.1.2 hc.2, ih hq.2,
      List.singleton_append]

theorem pv_plain_string (q : List Char) (hq : q.all plainQChar = true) (f : Nat)
    (rest : List Char) :
    parseF (f + 1) .val ('"' :: (q ++ '"' :: rest)) = some (.str q, rest) := by
  rw [pv_quote]
  have hflat : q.flatMap encStrChar = q := flatMap_encStr_plain q hq
  have hrt := parseJStr_rt q (all_plain_jsafe q hq) rest ((q ++ '"' :: rest).length + 1) (by
    rw [hflat]
    simp only [List.length_append, List.length_cons]
    omega)
  rw [hflat] at hrt
  rw [hrt]
  rfl

theorem skip_ne_rbracket (c : Char) (X : List Char)
    (hws : (c = ' ' || c = '\t' || c = '\n' || c = '\r') = false) (hc : c ≠ ']') :
    ∀ r2, skipWs (c :: X) ≠ ']' :: r2 := by
  intro r2 he
  rw [skipWs_not_ws c X hws] at he
  exact absurd (List.head_eq_of_cons_eq he) hc

theorem skip_ne_rbracket_int (a : Int) (Y : List Char) :
    ∀ r2, skipWs (intStr a ++ Y) ≠ ']' :: r2 := by
  intro r2 he
  obtain ⟨c, t2, hct, hws, hrb, _⟩ := dumps_head (.int a) rfl
  have hct2 : intStr a = c :: t2 := hct
  rw [hct2, List.cons_append, skipWs_not_ws c _ hws] at he
  exact absurd (List.head_eq_of_cons_eq he) hrb

theorem skeletonParse (q INB : List Char) (VA : JVal) (hq : q.all plainQChar = true)
    (hInner : ∀ g : Nat, parseF (g + 5) .val INB
      = some (VA, ']' :: ']' :: ']' :: ']' :: [])) :
    ∀ g : Nat, parseF (g + 23) .val
      ('[' :: '[' :: 'n' :: 'u' :: 'l' :: 'l' :: ',' :: '[' :: '[' :: '3' :: ',' :: '"' ::
        (q ++ '"' :: ',' :: 'n' :: 'u' :: 'l' :: 'l' :: ',' :: 'n' :: 'u' :: 'l' :: 'l' ::
          ',' :: '2' :: ',' :: INB))
      = some ((.arr (.cons (.arr (.cons .null (.cons (.arr (.cons (.arr (.cons (.int 3) (.cons (.str q) (.cons .null (.cons .null (.cons (.int 2) (.cons VA .nil))))))) .nil)) .nil))) .nil)), []) := by
  intro g
  have hLst3 : parseF (g + 11) (.arrTail .nil)
      ('3' :: ',' :: '"' :: (q ++ '"' :: ',' :: 'n' :: 'u' :: 'l' :: 'l' :: ',' ::
        'n' :: 'u' :: 'l' :: 'l' :: ',' :: '2' :: ',' :: INB))
      = some ((.arr (.cons (.int 3) (.cons (.str q) (.cons .null (.cons .null (.cons (.int 2) (.cons VA .nil))))))), ']' :: ']' :: ']' :: []) := by
    have hv1 : parseF (g + 10) .val
        ('3' :: ',' :: '"' :: (q ++ '"' :: ',' :: 'n' :: 'u' :: 'l' :: 'l' :: ',' ::
          'n' :: 'u' :: 'l' :: 'l' :: ',' :: '2' :: ',' :: INB))
        = some (.int 3, ',' :: '"' :: (q ++ '"' :: ',' :: 'n' :: 'u' :: 'l' :: 'l' :: ',' ::
          'n' :: 'u' :: 'l' :: 'l' :: ',' :: '2' :: ',' :: INB)) :=
      (pv_digit (g + 9) '3' _ (by decide)).trans (parseJNum_intStr 3 _ (by rfl))
    have e1 := pat_step_comma (g + 10) .nil _ (.int 3) _ _ hv1 (by rfl)
    have hv2 : parseF (g + 9) .val
        ('"' :: (q ++ '"' :: ',' :: 'n' :: 'u' :: 'l' :: 'l' :: ',' ::
          'n' :: 'u' :: 'l' :: 'l' :: ',' :: '2' :: ',' :: INB))
        = some (.str q, ',' :: 'n' :: 'u' :: 'l' :: 'l' :: ',' ::
          'n' :: 'u' :: 'l' :: 'l' :: ',' :: '2' :: ',' :: INB) :=
      pv_plain_string q hq (g + 8) _
    have e2 := pat_step_comma (g + 9) (jarrSnoc .nil (.int 3)) _ (.str q) _ _ hv2 (by rfl)
    have hv3 : parseF (g + 8) .val
        ('n' :: 'u' :: 'l' :: 'l' :: ',' :: 'n' :: 'u' :: 'l' :: 'l' :: ',' ::
          '2' :: ',' :: INB)
        = some (.null, ',' :: 'n' :: 'u' :: 'l' :: 'l' :: ',' :: '2' :: ',' :: INB) :=
      pv_null (g + 7) _
    have e3 := pat_step_comma (g + 8) (jarrSnoc (jarrSnoc .nil (.int 3)) (.str q)) _
      .null _ _ hv3 (by rfl)
    have hv4 : parseF (g + 7) .val ('n' :: 'u' :: 'l' :: 'l' :: ',' :: '2' :: ',' :: INB)
        = some (.null, ',' :: '2' :: ',' :: INB) := pv_null (g + 6) _
    have e4 := pat_step_comma (g + 7)
      (jarrSnoc (jarrSnoc (jarrSnoc .nil (.int 3)) (.str q)) .null) _ .null _ _ hv4 (by rfl)
    have hv5 : parseF (g + 6) .val ('2' :: ',' :: INB) = some (.int 2, ',' :: INB) :=
      (pv_digit (g + 5) '2' _ (by decide)).trans (parseJNum_intStr 2 _ (by rfl))
    have e5 := pat_step_comma (g + 6)
      (jarrSnoc (jarrSnoc (jarrSnoc (jarrSnoc .nil (.int 3)) (.str q)) .null) .null) _
      (.int 2) _ _ hv5 (by rfl)
    have hv6 : parseF (g + 5) .val INB = some (VA, ']' :: ']' :: ']' :: ']' :: []) :=
      hInner g
    have e6 := pat_step_close (g + 5)
      (jarrSnoc (jarrSnoc (jarrSnoc (jarrSnoc (jarrSnoc .nil (.int 3)) (.str q)) .null)
        .null) (.int 2)) _ VA _ _ hv6 (by rfl)
    exact e1.trans (e2.trans (e3.trans (e4.trans (e5.trans e6))))
  have hInner2 : parseF (g + 16) .val
      ('[' :: '[' :: '3' :: ',' :: '"' :: (q ++ '"' :: ',' :: 'n' :: 'u' :: 'l' :: 'l' ::
        ',' :: 'n' :: 'u' :: 'l' :: 'l' :: ',' :: '2' :: ',' :: INB))
      = some ((.arr (.cons (.arr (.cons (.int 3) (.cons (.str q) (.cons .null (.cons .null (.cons (.int 2) (.cons VA .nil))))))) .nil)), ']' :: ']' :: []) := by
    have hv : parseF (g + 13) .val
        ('[' :: '3' :: ',' :: '"' :: (q ++ '"' :: ',' :: 'n' :: 'u' :: 'l' :: 'l' ::
          ',' :: 'n' :: 'u' :: 'l' :: 'l' :: ',' :: '2' :: ',' :: INB))
        = some ((.arr (.cons (.int 3) (.cons (.str q) (.cons .null (.cons .null (.cons (.int 2) (.cons VA .nil))))))), ']' :: ']' :: ']' :: []) :=
      (pv_lbracket (g + 12) _).trans
        ((pa_of_other (g + 11) _ (skip_ne_rbracket '3' _ (by decide) (by decide))).trans
          hLst3)
    have h1 := pv_lbracket (g + 15)
      ('[' :: '3' :: ',' :: '"' :: (q ++ '"' :: ',' :: 'n' :: 'u' :: 'l' :: 'l' ::
        ',' :: 'n' :: 'u' :: 'l' :: 'l' :: ',' :: '2' :: ',' :: INB))
    have h2 := pa_of_other (g + 14)
      ('[' :: '3' :: ',' :: '"' :: (q ++ '"' :: ',' :: 'n' :: 'u' :: 'l' :: 'l' :: ',' :: 'n' :: 'u' :: 'l' :: 'l' :: ',' :: '2' :: ',' :: INB))
      (skip_ne_rbracket '[' ('3' :: ',' :: '"' :: (q ++ '"' :: ',' :: 'n' :: 'u' :: 'l' :: 'l' :: ',' :: 'n' :: 'u' :: 'l' :: 'l' :: ',' :: '2' :: ',' :: INB)) (by decide) (by decide))
    have h3 := pat_step_close (g + 13) .nil _ (.arr (.cons (.int 3) (.cons (.str q) (.cons .null (.cons .null (.cons (.int 2) (.cons VA .nil))))))) _ _ hv (by rfl)
    exact h1.trans (h2.trans h3)
  have hMid : parseF (g + 20) .val
      ('[' :: 'n' :: 'u' :: 'l' :: 'l' :: ',' :: '[' :: '[' :: '3' :: ',' :: '"' ::
        (q ++ '"' :: ',' :: 'n' :: 'u' :: 'l' :: 'l' :: ',' :: 'n' :: 'u' :: 'l' :: 'l' ::
          ',' :: '2' :: ',' :: INB))
      = some ((.arr (.cons .null (.cons (.arr (.cons (.arr (.cons (.int 3) (.cons (.str q) (.cons .null (.cons .null (.cons (.int 2) (.cons VA .nil))))))) .nil)) .nil))), ']' :: []) := by
    have h1 := pv_lbracket (g + 19)
      ('n' :: 'u' :: 'l' :: 'l' :: ',' :: '[' :: '[' :: '3' :: ',' :: '"' ::
        (q ++ '"' :: ',' :: 'n' :: 'u' :: 'l' :: 'l' :: ',' :: 'n' :: 'u' :: 'l' :: 'l' ::
          ',' :: '2' :: ',' :: INB))
    have h2 := pa_of_other (g + 18)
      ('n' :: 'u' :: 'l' :: 'l' :: ',' :: '[' :: '[' :: '3' :: ',' :: '"' :: (q ++ '"' :: ',' :: 'n' :: 'u' :: 'l' :: 'l' :: ',' :: 'n' :: 'u' :: 'l' :: 'l' :: ',' :: '2' :: ',' :: INB))
      (skip_ne_rbracket 'n'
        ('u' :: 'l' :: 'l' :: ',' :: '[' :: '[' :: '3' :: ',' :: '"' :: (q ++ '"' :: ',' :: 'n' :: 'u' :: 'l' :: 'l' :: ',' :: 'n' :: 'u' :: 'l' :: 'l' :: ',' :: '2' :: ',' :: INB))
        (by decide) (by decide))
    have hv1 : parseF (g + 17) .val
        ('n' :: 'u' :: 'l' :: 'l' :: ',' :: '[' :: '[' :: '3' :: ',' :: '"' ::
          (q ++ '"' :: ',' :: 'n' :: 'u' :: 'l' :: 'l' :: ',' :: 'n' :: 'u' :: 'l' :: 'l' ::
            ',' :: '2' :: ',' :: INB))
        = some (.null, ',' :: '[' :: '[' :: '3' :: ',' :: '"' ::
          (q ++ '"' :: ',' :: 'n' :: 'u' :: 'l' :: 'l' :: ',' :: 'n' :: 'u' :: 'l' :: 'l' ::
            ',' :: '2' :: ',' :: INB)) := pv_null (g + 16) _
    have e1 := pat_step_comma (g + 17) .nil _ .null _ _ hv1 (by rfl)
    have e2 := pat_step_close (g + 16) (jarrSnoc .nil .null) _
      (.arr (.cons (.arr (.cons (.int 3) (.cons (.str q) (.cons .null (.cons .null (.cons (.int 2) (.cons VA .nil))))))) .nil)) _ _ hInner2 (by rfl)
    exact h1.trans (h2.trans (e1.trans e2))
  have h1 := pv_lbracket (g + 22)
    ('[' :: 'n' :: 'u' :: 'l' :: 'l' :: ',' :: '[' :: '[' :: '3' :: ',' :: '"' ::
      (q ++ '"' :: ',' :: 'n' :: 'u' :: 'l' :: 'l' :: ',' :: 'n' :: 'u' :: 'l' :: 'l' ::
        ',' :: '2' :: ',' :: INB))
  have h2 := pa_of_other (g + 21)
    ('[' :: 'n' :: 'u' :: 'l' :: 'l' :: ',' :: '[' :: '[' :: '3' :: ',' :: '"' :: (q ++ '"' :: ',' :: 'n' :: 'u' :: 'l' :: 'l' :: ',' :: 'n' :: 'u' :: 'l' :: 'l' :: ',' :: '2' :: ',' :: INB))
    (skip_ne_rbracket '['
      ('n' :: 'u' :: 'l' :: 'l' :: ',' :: '[' :: '[' :: '3' :: ',' :: '"' :: (q ++ '"' :: ',' :: 'n' :: 'u' :: 'l' :: 'l' :: ',' :: 'n' :: 'u' :: 'l' :: 'l' :: ',' :: '2' :: ',' :: INB))
      (by decide) (by decide))
  have h3 := pat_step_close (g + 20) .nil _
    (.arr (.cons .null (.cons (.arr (.cons (.arr (.cons (.int 3) (.cons (.str q) (.cons .null (.cons .null (.cons (.int 2) (.cons VA .nil))))))) .nil)) .nil))) _ _ hMid (by rfl)
  exact h1.trans (h2.trans h3)

theorem innerNone (a : Int) : ∀ g : Nat,
    parseF (g + 5) .val ('[' :: (intStr a ++ ']' :: ']' :: ']' :: ']' :: ']' :: []))
      = some (.arr (.cons (.int a) .nil), ']' :: ']' :: ']' :: ']' :: []) := by
  intro g
  have hv : parseF (g + 2) .val (intStr a ++ ']' :: ']' :: ']' :: ']' :: ']' :: [])
      = some (.int a, ']' :: ']' :: ']' :: ']' :: ']' :: []) :=
    (pv_intStr (g + 1) a _).trans (parseJNum_intStr a _ (by rfl))
  have h1 := pv_lbracket (g + 4) (intStr a ++ ']' :: ']' :: ']' :: ']' :: ']' :: [])
  have h2 := pa_of_other (g + 3) (intStr a ++ ']' :: ']' :: ']' :: ']' :: ']' :: [])
    (skip_ne_rbracket_int a _)
  have h3 := pat_step_close (g + 2) .nil
    (intStr a ++ ']' :: ']' :: ']' :: ']' :: ']' :: []) (.int a)
    (']' :: ']' :: ']' :: ']' :: ']' :: []) (']' :: ']' :: ']' :: ']' :: []) hv (by rfl)
  exact h1.trans (h2.trans h3)

theorem innerSome (a : Int) (s : List Char) (hs : s.all plainQChar = true) : ∀ g : Nat,
    parseF (g + 5) .val ('[' :: (intStr a ++ ',' :: '"' ::
        (s ++ '"' :: ']' :: ']' :: ']' :: ']' :: ']' :: [])))
      = some (.arr (.cons (.int a) (.cons (.str s) .nil)),
        ']' :: ']' :: ']' :: ']' :: []) := by
  intro g
  have hv1 : parseF (g + 2) .val
      (intStr a ++ ',' :: '"' :: (s ++ '"' :: ']' :: ']' :: ']' :: ']' :: ']' :: []))
      = some (.int a, ',' :: '"' :: (s ++ '"' :: ']' :: ']' :: ']' :: ']' :: ']' :: [])) :=
    (pv_intStr (g + 1) a _).trans (parseJNum_intStr a _ (by rfl))
  have hv2 : parseF (g + 1) .val
      ('"' :: (s ++ '"' :: ']' :: ']' :: ']' :: ']' :: ']' :: []))
      = some (.str s, ']' :: ']' :: ']' :: ']' :: ']' :: []) := pv_plain_string s hs g _
  have h1 := pv_lbracket (g + 4)
    (intStr a ++ ',' :: '"' :: (s ++ '"' :: ']' :: ']' :: ']' :: ']' :: ']' :: []))
  have h2 := pa_of_other (g + 3)
    (intStr a ++ ',' :: '"' :: (s ++ '"' :: ']' :: ']' :: ']' :: ']' :: ']' :: []))
    (skip_ne_rbracket_int a _)
  have e1 := pat_step_comma (g + 2) .nil
    (intStr a ++ ',' :: '"' :: (s ++ '"' :: ']' :: ']' :: ']' :: ']' :: ']' :: []))
    (.int a) (',' :: '"' :: (s ++ '"' :: ']' :: ']' :: ']' :: ']' :: ']' :: []))
    ('"' :: (s ++ '"' :: ']' :: ']' :: ']' :: ']' :: ']' :: [])) hv1 (by rfl)
  have e2 := pat_step_close (g + 1) (jarrSnoc .nil (.int a))
    ('"' :: (s ++ '"' :: ']' :: ']' :: ']' :: ']' :: ']' :: [])) (.str s)
    (']' :: ']' :: ']' :: ']' :: ']' :: []) (']' :: ']' :: ']' :: ']' :: []) hv2 (by rfl)
  exact h1.trans (h2.trans (e1.trans e2))

theorem subPayload_loads (q : List Char) (a : Int) (t : Option (List Char))
    (hq : q.all plainQChar = true)
    (ht : ∀ s, t = some s → s.all plainQChar = true) :
    loads (subPayload q a t) = some (subParsed q a t) := by
  have hlen : 23 ≤ 4 * (subPayload q a t).length + 8 := by
    cases t with
    | none =>
      show 23 ≤ 4 * ((((S "[[null,[[3,\"" ++ q) ++ S "\",null,null,2,[")
        ++ intStr a) ++ S "]]]]]").length + 8
      simp only [List.length_append]
      have h1 : (S "[[null,[[3,\"").length = 12 := rfl
      have h3 : (S "]]]]]").length = 5 := rfl
      omega
    | some s =>
      show 23 ≤ 4 * ((((((S "[[null,[[3,\"" ++ q) ++ S "\",null,null,2,[")
        ++ intStr a) ++ S ",\"") ++ s) ++ S "\"]]]]]").length + 8
      simp only [List.length_append]
      have h1 : (S "[[null,[[3,\"").length = 12 := rfl
      have h3 : (S "\"]]]]]").length = 6 := rfl
      omega
  obtain ⟨g, hg⟩ : ∃ g, 4 * (subPayload q a t).length + 8 = g + 23 :=
    ⟨4 * (subPayload q a t).length + 8 - 23, by omega⟩
  have hrun : parseF (4 * (subPayload q a t).length + 8) .val (subPayload q a t)
      = some (subParsed q a t, []) := by
    rw [hg]
    cases t with
    | none =>
      have hN : subPayload q a none
          = ('[' :: '[' :: 'n' :: 'u' :: 'l' :: 'l' :: ',' :: '[' :: '[' :: '3' :: ',' ::
            '"' :: (q ++ '"' :: ',' :: 'n' :: 'u' :: 'l' :: 'l' :: ',' :: 'n' :: 'u' ::
              'l' :: 'l' :: ',' :: '2' :: ',' ::
              ('[' :: (intStr a ++ ']' :: ']' :: ']' :: ']' :: ']' :: [])))) := by
        show ((((S "[[null,[[3,\"" ++ q) ++ S "\",null,null,2,[")
          ++ intStr a) ++ S "]]]]]") = _
        rw [List.append_assoc, List.append_assoc, List.append_assoc]
        rfl
      rw [hN]
      exact skeletonParse q ('[' :: (intStr a ++ ']' :: ']' :: ']' :: ']' :: ']' :: []))
        (.arr (.cons (.int a) .nil)) hq (innerNone a) g
    | some s =>
      have hs := ht s rfl
      have hN : subPayload q a (some s)
          = ('[' :: '[' :: 'n' :: 'u' :: 'l' :: 'l' :: ',' :: '[' :: '[' :: '3' :: ',' ::
            '"' :: (q ++ '"' :: ',' :: 'n' :: 'u' :: 'l' :: 'l' :: ',' :: 'n' :: 'u' ::
              'l' :: 'l' :: ',' :: '2' :: ',' ::
              ('[' :: (intStr a ++ ',' :: '"' ::
                (s ++ '"' :: ']' :: ']' :: ']' :: ']' :: ']' :: []))))) := by
        show ((((((S "[[null,[[3,\"" ++ q) ++ S "\",null,null,2,[")
          ++ intStr a) ++ S ",\"") ++ s) ++ S "\"]]]]]") = _
        rw [List.append_assoc, List.append_assoc, List.append_assoc, List.append_assoc,
          List.append_assoc]
        rfl
      rw [hN]
      exact skeletonParse q
        ('[' :: (intStr a ++ ',' :: '"' :: (s ++ '"' :: ']' :: ']' :: ']' :: ']' :: ']' :: [])))
        (.arr (.cons (.int a) (.cons (.str s) .nil))) hq (innerSome a s hs) g
  unfold loads
  rw [hrun]
  rfl

/-- C5 (counterexample): the round trip does not hold for *every* query.
The query `a"b` is spliced into the f-string sub-payload with no escaping,
so the embedded JSON string is broken: the sub-payload does not parse at
all, and no amount of percent-decoding can recover the original query
from it.  (The output still starts with the fixed form-field prefix.) -/
theorem C5_counterexample :
    startsWithL (S "f.req=") (build_request_data (S "a\"b") 5 none) = true ∧
    loads (subPayload (S "a\"b") 5 none) = none := ⟨rfl, rfl⟩

/-- C5: corrected round trip.  For queries and tokens of plain printable
ASCII (no `"` or `\`), `build_request_data` starts with the `f.req=`
prefix; percent-decoding the remainder recovers exactly the dumped
request value, which parses back to itself; and the embedded sub-payload
parses to the nested-array shape in which a present token appears as a
second pagination argument after the amount — a genuinely different shape
from the token-absent payload. -/
theorem C5_request_roundtrip (query : List Char) (amount : Int)
    (tok : Option (List Char)) (hq : query.all plainQChar = true)
    (ht : ∀ s, tok = some s → s.all plainQChar = true) :
    startsWithL (S "f.req=") (build_request_data query amount tok) = true ∧
    pyUnquote ((build_request_data query amount tok).drop 6)
      = dumpsL (reqVal query amount tok) ∧
    loads (dumpsL (reqVal query amount tok)) = some (reqVal query amount tok) ∧
    loads (subPayload query amount tok) = some (subParsed query amount tok) := by
  refine ⟨?_, ?_, ?_, ?_⟩
  · exact startsWithL_self_append (S "f.req=") _
  · show pyUnquote ((S "f.req=" ++ pyQuote (dumpsL (reqVal query amount tok))).drop 6)
      = dumpsL (reqVal query amount tok)
    rw [show (6 : Nat) = (S "f.req=").length from rfl, List.drop_left]
    exact pyUnquote_pyQuote _ (dumps_ascii_val _ (reqVal_jsafe query amount tok hq ht))
  · exact loads_dumps _ (reqVal_jsafe query amount tok hq ht)
  · exact subPayload_loads query amount tok hq ht

/-- C5 witness: the round trip at the concrete query `prod`, amount 32,
and token `CTOK`. -/
theorem C5_witness :
    startsWithL (S "f.req=") (build_request_data (S "prod") 32 (some (S "CTOK"))) = true ∧
    pyUnquote ((build_request_data (S "prod") 32 (some (S "CTOK"))).drop 6)
      = dumpsL (reqVal (S "prod") 32 (some (S "CTOK"))) ∧
    loads (dumpsL (reqVal (S "prod") 32 (some (S "CTOK"))))
      = some (reqVal (S "prod") 32 (some (S "CTOK"))) ∧
    loads (subPayload (S "prod") 32 (some (S "CTOK")))
      = some (subParsed (S "prod") 32 (some (S "CTOK"))) :=
  C5_request_roundtrip (S "prod") 32 (some (S "CTOK")) (by decide)
    (fun s hs => by
      rw [← Option.some.inj hs]
      decide)
